import Mathlib

/-
Verification of the core of the F1 data pipeline:
  - data_reconciliation/reconciliation_engine.py (ReconciliationEngine)
  - utils/rate_limiter.py (apply_rate_limiting)
  - data_collection/progress_tracker.py (ProgressTracker)

Modelling conventions (shallow embedding):
  - A pandas DataFrame is a list of column names plus a list of rows; each
    cell is `Option Val`, where `none` models a missing value (NaN/None).
  - Cell values are integers or strings.  Numeric values (including
    timestamps) are modelled in tenths of a time-unit, so the source's
    0.1-time-unit asof tolerance is the integer 1; no claim depends on the
    absolute scale.
  - Reading a cell past the end of a (ragged) row yields `none`, matching
    NaN-filling; operations that extend rows pad them first.
  - Python in-place mutation of an argument DataFrame is modelled by
    returning the caller-visible value of each argument after the call.
  - Code paths that raise (KeyError, TypeError, pandas merge errors) are
    modelled with `Except String`; the strategy-level try/except of the
    reconciliation engine maps an error to the fallback result exactly as
    the source does.
-/

namespace F1Verify

/-- A single cell value: a number (in tenths of a unit) or a string. -/
inductive Val where
  | num (n : Int)
  | str (s : String)
deriving DecidableEq, Repr

abbrev Row := List (Option Val)

/-- A pandas DataFrame: column names plus rows of optional cells. -/
structure DataFrame where
  cols : List String
  rows : List Row
deriving DecidableEq, Repr

/-- Pad (or truncate) a row to exactly `n` cells, filling with `none`. -/
def padTo (r : Row) (n : Nat) : Row :=
  (r ++ List.replicate (n - r.length) none).take n

/-- Lookup of the first pair labelled `name` in a (column, cell) list. -/
def cellLookup : List (String × Option Val) → String → Option Val
  | [], _ => none
  | q :: qs, name => if q.1 == name then q.2 else cellLookup qs name

/-- Value of the cell of row `r` under the first column named `name`
(`none` when the column is absent or the cell is missing). -/
def DataFrame.cell (df : DataFrame) (name : String) (r : Row) : Option Val :=
  cellLookup (df.cols.zip (padTo r df.cols.length)) name

/-- The column named `name`, as the list of its cells, row by row. -/
def DataFrame.colVals (df : DataFrame) (name : String) : List (Option Val) :=
  df.rows.map (fun r => df.cell name r)

/-- `df[c] = vs` (pandas column assignment, aligned by row position):
overwrites every column labelled `c`, or appends a new column. -/
def setCol (df : DataFrame) (c : String) (vs : List (Option Val)) : DataFrame :=
  if df.cols.contains c then
    ⟨df.cols,
     df.rows.enum.map (fun p =>
       (df.cols.zip (padTo p.2 df.cols.length)).map
         (fun q => if q.1 == c then vs.getD p.1 none else q.2))⟩
  else
    ⟨df.cols ++ [c],
     df.rows.enum.map (fun p => padTo p.2 df.cols.length ++ [vs.getD p.1 none])⟩

/-- `df.drop(columns=[c])`: removes every column labelled `c`. -/
def dropAllCol (df : DataFrame) (c : String) : DataFrame :=
  ⟨df.cols.filter (fun c2 => !(c2 == c)),
   df.rows.map (fun r =>
     ((df.cols.zip (padTo r df.cols.length)).filter (fun q => !(q.1 == c))).map (fun q => q.2))⟩

/-- `df.rename(columns=dict m)`: maps every column name through `m`. -/
def renameCols (df : DataFrame) (m : List (String × String)) : DataFrame :=
  ⟨df.cols.map (fun c => (m.lookup c).getD c), df.rows⟩

/-- `a.combine_first(b)` on two positionally indexed series: value from `a`
when present, else from `b`; length is the larger of the two. -/
def combineFirstVals (a b : List (Option Val)) : List (Option Val) :=
  (List.range (max a.length b.length)).map
    (fun i => match a.getD i none with
      | some v => some v
      | none => b.getD i none)

/-! ## Completion ledger: data_collection/progress_tracker.py

The durable store (the newline-delimited log file) is the `log_file` field;
the in-memory set is `completed_items`.  `mark_completed` appends to the
durable store first, then updates the set, exactly when the key is new. -/

structure ProgressTracker where
  log_file : List String
  completed_items : Finset String
deriving DecidableEq

/-- `ProgressTracker.is_completed`: pure membership in the in-memory set. -/
def ProgressTracker.is_completed (t : ProgressTracker) (k : String) : Bool :=
  k ∈ t.completed_items

/-- `ProgressTracker.mark_completed`: no-op when already completed, else
append to the log file and insert into the in-memory set. -/
def ProgressTracker.mark_completed (t : ProgressTracker) (k : String) : ProgressTracker :=
  if k ∈ t.completed_items then t
  else ⟨t.log_file ++ [k], insert k t.completed_items⟩

/-! ## Rate limiter: utils/rate_limiter.py (apply_rate_limiting) -/

def max_retries : Nat := 5

def base_delay : ℚ := 5

/-- The delay computed inside `apply_rate_limiting` for a retry `attempt`
(0-based) and the drawn `jitter`: exponential backoff with jitter, then the
three tiered minimum-delay floors, in source order. -/
def computed_delay (attempt : Nat) (jitter : ℚ) : ℚ :=
  let d0 := base_delay * 2 ^ attempt + jitter
  let d1 := if 1 ≤ attempt then max d0 60 else d0
  let d2 := if 2 ≤ attempt then max d1 300 else d1
  if 3 ≤ attempt then max d2 1800 else d2

/-- The minimum delay the source enforces at a given attempt number. -/
def delay_floor (attempt : Nat) : ℚ :=
  if 3 ≤ attempt then 1800 else if 2 ≤ attempt then 300 else if 1 ≤ attempt then 60 else 0

/-- Python substring test `pat in s`, on character lists. -/
def hasOccur (pat : List Char) : List Char → Bool
  | [] => pat.isEmpty
  | c :: cs => pat.isPrefixOf (c :: cs) || hasOccur pat cs

/-- `"Rate limit" in str(e)`: the error-classification test of the source. -/
def isRateLimitError (e : String) : Bool := hasOccur "Rate limit".data e.data

/-- The retry loop of `apply_rate_limiting`.  `op n` is the outcome of the
`n`-th invocation of the wrapped function, `jitter n` the random draw at
attempt `n`.  Returns the final outcome, the number of invocations
performed, and the list of computed sleep delays.  `fuel` counts the loop
iterations remaining (`range(max_retries)`); the fuel-exhausted case is
unreachable when started with positive fuel, since the last attempt always
returns or re-raises. -/
def apply_rate_limiting_go {α : Type} (op : Nat → Except String α) (jitter : Nat → ℚ) :
    Nat → Nat → Except String α × Nat × List ℚ
  | _, 0 => (Except.error "", 0, [])
  | attempt, fuel + 1 =>
    match op attempt with
    | Except.ok a => (Except.ok a, 1, [])
    | Except.error e =>
      if isRateLimitError e then
        if attempt < max_retries - 1 then
          let d := computed_delay attempt (jitter attempt)
          let r := apply_rate_limiting_go op jitter (attempt + 1) fuel
          (r.1, r.2.1 + 1, d :: r.2.2)
        else (Except.error e, 1, [])
      else (Except.error e, 1, [])

/-- `apply_rate_limiting`: run the wrapped operation under the retry loop. -/
def apply_rate_limiting {α : Type} (op : Nat → Except String α) (jitter : Nat → ℚ) :
    Except String α × Nat × List ℚ :=
  apply_rate_limiting_go op jitter 0 max_retries

/-! ## Reconciliation engine: data_reconciliation/reconciliation_engine.py

Each category strategy is split into a `_body` returning `Except String
DataFrame` — the translation of the `try` block, erroring exactly where the
source can raise — and a total wrapper applying the source's `except`
fallback. -/

/-- `primary_df = fastf1_data if priority_source == 'fastf1' else openf1_data`. -/
def primary_of (f o : DataFrame) (p : String) : DataFrame := if p == "fastf1" then f else o

/-- `secondary_df = openf1_data if priority_source == 'fastf1' else fastf1_data`. -/
def secondary_of (f o : DataFrame) (p : String) : DataFrame := if p == "fastf1" then o else f

/-- `result[col] = result[col].combine_first(secondary_df[col])`. -/
def genericStep (secondary_df : DataFrame) (r : DataFrame) (c : String) : DataFrame :=
  setCol r c (combineFirstVals (r.colVals c) (secondary_df.colVals c))

/-- `try` block of `_generic_reconciliation`: structural check (positional
column comparison guarded by the shape test, short-circuited exactly as in
the source), then per-column `combine_first` into a copy of the primary.
No step of this block can raise, so it never returns an error. -/
def generic_body (f o : DataFrame) (p : String) : Except String DataFrame :=
  let primary_df := primary_of f o p
  let secondary_df := secondary_of f o p
  if primary_df.cols.length ≠ secondary_df.cols.length ∨ primary_df.cols ≠ secondary_df.cols then
    Except.ok primary_df
  else
    Except.ok (primary_df.cols.foldl (genericStep secondary_df) primary_df)

/-- `ReconciliationEngine._generic_reconciliation`. -/
def generic_reconciliation (f o : DataFrame) (p : String) : DataFrame :=
  match generic_body f o p with
  | Except.ok r => r
  | Except.error _ => if p == "fastf1" then f else o

/-! ### Telemetry strategy -/

def fastf1_mapping : List (String × String) :=
  [("Speed", "speed"), ("RPM", "rpm"), ("Throttle", "throttle"),
   ("Brake", "brake"), ("DRS", "drs"), ("Time", "time")]

def openf1_mapping : List (String × String) :=
  [("speed", "speed"), ("rpm", "rpm"), ("throttle", "throttle"),
   ("brake", "brake"), ("drs", "drs"), ("time", "time")]

/-- The `time` column of `df` read as numbers; a missing cell (or a cell of
a row too short) is `none`, modelling NaN. -/
def timesOf (df : DataFrame) : List (Option Int) :=
  df.rows.map (fun r => match df.cell "time" r with
    | some (Val.num t) => some t
    | _ => none)

/-- Validation the source performs implicitly when it evaluates
`renamed['time'].min()` and later merges on `'time'`: a missing `time`
column raises `KeyError`; duplicate `time` labels make `['time']` a
DataFrame and the surrounding `max(...)` raise; a string cell raises
(`TypeError` from `.min()` on a mixed column, or `MergeError` from
`merge_asof` on a non-numeric key).  On success the values are `timesOf`. -/
def timeValsE (df : DataFrame) : Except String (List (Option Int)) :=
  if (df.cols.filter (fun c => c == "time")).length = 1 then
    if df.rows.all (fun r => match df.cell "time" r with
        | some (Val.str _) => false
        | _ => true) then
      Except.ok (timesOf df)
    else Except.error "TypeError"
  else Except.error "KeyError"

/-- `series.min()` with NaN skipped; NaN when nothing remains. -/
def seriesMin (l : List (Option Int)) : Option Int :=
  l.foldl (fun acc v => match acc, v with
    | none, x => x
    | some a, some b => some (min a b)
    | some a, none => some a) none

/-- `series.max()` with NaN skipped; NaN when nothing remains. -/
def seriesMax (l : List (Option Int)) : Option Int :=
  l.foldl (fun acc v => match acc, v with
    | none, x => x
    | some a, some b => some (max a b)
    | some a, none => some a) none

/-- Python billtin `max(a, b)` on possibly-NaN values: returns `b` only
when `b > a` compares true, so a NaN first argument wins. -/
def pyMax (a b : Option Int) : Option Int :=
  match a, b with
  | none, _ => none
  | some x, none => some x
  | some x, some y => if x < y then some y else some x

/-- Python builtin `min(a, b)` on possibly-NaN values. -/
def pyMin (a b : Option Int) : Option Int :=
  match a, b with
  | none, _ => none
  | some x, none => some x
  | some x, some y => if y < x then some y else some x

/-- `min_time = max(fastf1_renamed['time'].min(), openf1_renamed['time'].min())`. -/
def telemetry_min_time (f o : DataFrame) : Option Int :=
  pyMax (seriesMin (timesOf (renameCols f fastf1_mapping)))
        (seriesMin (timesOf (renameCols o openf1_mapping)))

/-- `max_time = min(fastf1_renamed['time'].max(), openf1_renamed['time'].max())`. -/
def telemetry_max_time (f o : DataFrame) : Option Int :=
  pyMin (seriesMax (timesOf (renameCols f fastf1_mapping)))
        (seriesMax (timesOf (renameCols o openf1_mapping)))

/-- `(df['time'] >= min_time) & (df['time'] <= max_time)`: any comparison
involving NaN is false. -/
def rowInWindow (df : DataFrame) (lo hi : Option Int) (r : Row) : Bool :=
  (match df.cell "time" r, lo with
   | some (Val.num t), some l => decide (l ≤ t)
   | _, _ => false) &&
  (match df.cell "time" r, hi with
   | some (Val.num t), some h => decide (t ≤ h)
   | _, _ => false)

def filterWindow (df : DataFrame) (lo hi : Option Int) : DataFrame :=
  ⟨df.cols, df.rows.filter (rowInWindow df lo hi)⟩

def rowTimeKey (df : DataFrame) (r : Row) : Option Int :=
  match df.cell "time" r with
  | some (Val.num t) => some t
  | _ => none

/-- Sort key order of `sort_values('time')`: ascending, NaN last. -/
def timeKeyLe : Option Int → Option Int → Bool
  | some a, some b => a ≤ b
  | some _, none => true
  | none, some _ => false
  | none, none => true

def insertSortedRow (le : Row → Row → Bool) (x : Row) : List Row → List Row
  | [] => [x]
  | y :: ys => if le x y then x :: y :: ys else y :: insertSortedRow le x ys

/-- Stable sort of rows; models `sort_values` (whose order among equal keys
no verified property depends on). -/
def sortRowsBy (le : Row → Row → Bool) : List Row → List Row
  | [] => []
  | x :: xs => insertSortedRow le x (sortRowsBy le xs)

def sortByTime (df : DataFrame) : DataFrame :=
  ⟨df.cols, sortRowsBy (fun a b => timeKeyLe (rowTimeKey df a) (rowTimeKey df b)) df.rows⟩

/-- `pd.Timedelta('0.1s')` in tenths of a time-unit. -/
def tolerance : Int := 1

/-- Candidate choice of `merge_asof(..., direction='nearest')`: the row
minimising the time distance (ties resolved by list position; no verified
property depends on the tie rule). -/
def asofPick (t : Int) (cands : List (Int × Row)) : Option (Int × Row) :=
  cands.foldl (fun best c =>
    match best with
    | none => some c
    | some b => if |c.1 - t| < |b.1 - t| then some c else some b) none

def asofNearest (sec : DataFrame) (t : Int) : Option Row :=
  let cands := sec.rows.filterMap (fun ro =>
    match rowTimeKey sec ro with
    | some t2 => if |t2 - t| ≤ tolerance then some (t2, ro) else none
    | none => none)
  (asofPick t cands).map (fun q => q.2)

/-- The non-key cells of a secondary row, in column order. -/
def projNonTime (sec : DataFrame) (ro : Row) : Row :=
  ((sec.cols.zip (padTo ro sec.cols.length)).filter (fun q => !(q.1 == "time"))).map (fun q => q.2)

/-- `pd.merge_asof(base, sec, on='time', tolerance, direction='nearest',
suffixes=('', '_secondary'))`: one output row per base row; the secondary's
non-key columns are appended, suffixed when they collide with a base
column, filled from the nearest-in-time secondary row within tolerance. -/
def merge_asof (base sec : DataFrame) : DataFrame :=
  let secCols := (sec.cols.filter (fun c => !(c == "time"))).map
    (fun c => if base.cols.contains c then c ++ "_secondary" else c)
  ⟨base.cols ++ secCols,
   base.rows.map (fun r =>
     padTo r base.cols.length ++
       (match rowTimeKey base r with
        | some t =>
          match asofNearest sec t with
          | some ro => projNonTime sec ro
          | none => List.replicate secCols.length none
        | none => List.replicate secCols.length none))⟩

/-- One iteration of the gap-filling loop of `_reconcile_telemetry_data`. -/
def fillStep (baseCols : List String) (m : DataFrame) (col : String) : DataFrame :=
  if baseCols.contains col && m.cols.contains (col ++ "_secondary") then
    dropAllCol (setCol m col (combineFirstVals (m.colVals col) (m.colVals (col ++ "_secondary"))))
      (col ++ "_secondary")
  else m

def fillLoop (baseCols secCols : List String) (m : DataFrame) : DataFrame :=
  (secCols.filter (fun c => !(c == "time"))).foldl (fillStep baseCols) m

/-- `try` block of `_reconcile_telemetry_data`. -/
def telemetry_body (f o : DataFrame) (p : String) : Except String DataFrame :=
  let f2 := renameCols f fastf1_mapping
  let o2 := renameCols o openf1_mapping
  (timeValsE f2).bind (fun ft => (timeValsE o2).bind (fun ot =>
    let min_time := pyMax (seriesMin ft) (seriesMin ot)
    let max_time := pyMin (seriesMax ft) (seriesMax ot)
    let ff := filterWindow f2 min_time max_time
    let oo := filterWindow o2 min_time max_time
    let base := if p == "fastf1" then ff else oo
    let sec := if p == "fastf1" then oo else ff
    Except.ok (fillLoop base.cols sec.cols (merge_asof (sortByTime base) (sortByTime sec)))))

/-- `ReconciliationEngine._reconcile_telemetry_data` (the `except` clause
falls back to the unmodified priority input: no local rebinding precedes a
possible raise in this strategy). -/
def reconcile_telemetry_data (f o : DataFrame) (p : String) : DataFrame :=
  match telemetry_body f o p with
  | Except.ok r => r
  | Except.error _ => if p == "fastf1" then f else o

/-! ### Timing strategy -/

/-- Python `s.replace(pat, rep)`: all non-overlapping occurrences, left to
right.  Structural recursion on fuel (one unit per consumed character);
invoked with fuel = length, which always suffices. -/
def replaceGo (pat rep : List Char) : Nat → List Char → List Char
  | _, [] => []
  | 0, s => s
  | fuel + 1, c :: cs =>
    if !pat.isEmpty && pat.isPrefixOf (c :: cs) then
      rep ++ replaceGo pat rep fuel ((c :: cs).drop pat.length)
    else c :: replaceGo pat rep fuel cs

def pyReplace (s pat rep : String) : String := ⟨replaceGo pat.data rep.data s.data.length s.data⟩

def pyEndsWith (s suf : String) : Bool := suf.data.isSuffixOf s.data

/-- Local and caller-visible frames after the normalization steps at the
top of `_reconcile_timing_data`.  `rename` returns a fresh copy, so a rename
rebinds the local name and shields the caller's frame; the later
`fastf1_data['driver_number'] = fastf1_data['DriverNumber']` mutates
whatever frame the local name refers to — the caller's own frame when no
rename occurred.  `openf1_data` is never mutated. -/
structure TimingPrep where
  fLocal : DataFrame
  oLocal : DataFrame
  fCaller : DataFrame

def timing_prepare (f o : DataFrame) : TimingPrep :=
  let fRen := !(f.cols.contains "Time") && f.cols.contains "time"
  let f1 := if fRen then renameCols f [("time", "Time")] else f
  let o1 := if !(o.cols.contains "Time") && o.cols.contains "time"
            then renameCols o [("time", "Time")] else o
  if f1.cols.contains "DriverNumber" && o1.cols.contains "driver_number" then
    let f2 := setCol f1 "driver_number" (f1.colVals "DriverNumber")
    ⟨f2, o1, if fRen then f else f2⟩
  else ⟨f1, o1, f⟩

/-- True when the source mutates the caller's fastf1 frame in place. -/
def timing_mutates (f o : DataFrame) : Bool :=
  let fRen := !(f.cols.contains "Time") && f.cols.contains "time"
  let f1 := if fRen then renameCols f [("time", "Time")] else f
  let o1 := if !(o.cols.contains "Time") && o.cols.contains "time"
            then renameCols o [("time", "Time")] else o
  !fRen && (f1.cols.contains "DriverNumber" && o1.cols.contains "driver_number")

/-- `merge_cols = [c for c in ['Time','driver_number'] if c in both]`. -/
def timing_merge_cols (fL oL : DataFrame) : List String :=
  ["Time", "driver_number"].filter (fun c => fL.cols.contains c && oL.cols.contains c)

/-- Key equality of two rows under the join keys (pandas matches NaN keys
with NaN keys in `merge`). -/
def rowMatchesOn (fL oL : DataFrame) (keys : List String) (rf ro : Row) : Bool :=
  keys.all (fun k => fL.cell k rf == oL.cell k ro)

/-- The non-key cells of a right row, in column order. -/
def oProjNonKey (oL : DataFrame) (keys : List String) (ro : Row) : Row :=
  ((oL.cols.zip (padTo ro oL.cols.length)).filter (fun q => !(keys.contains q.1))).map (fun q => q.2)

/-- `pd.merge(fL, oL, on=keys, how='outer', suffixes=('_fastf1','_openf1'))`.
Non-key columns present on both sides get their provider suffix; matched
row pairs combine, unmatched rows from either side are retained with the
other side's fields NaN.  (Row order of an outer merge is modelled as left
order followed by unmatched right rows; no verified property depends on
row order.) -/
def outerMerge (fL oL : DataFrame) (keys : List String) : DataFrame :=
  let fCols := fL.cols.map (fun c =>
    if !(keys.contains c) && oL.cols.contains c then c ++ "_fastf1" else c)
  let oCols := (oL.cols.filter (fun c => !(keys.contains c))).map
    (fun c => if fL.cols.contains c then c ++ "_openf1" else c)
  let leftRows := fL.rows.flatMap (fun rf =>
    let ms := oL.rows.filter (fun ro => rowMatchesOn fL oL keys rf ro)
    if ms.isEmpty then [padTo rf fL.cols.length ++ List.replicate oCols.length none]
    else ms.map (fun ro => padTo rf fL.cols.length ++ oProjNonKey oL keys ro))
  let rightRows := (oL.rows.filter (fun ro =>
      !(fL.rows.any (fun rf => rowMatchesOn fL oL keys rf ro)))).map
    (fun ro => fL.cols.map (fun c => if keys.contains c then oL.cell c ro else none) ++
      oProjNonKey oL keys ro)
  ⟨fCols ++ oCols, leftRows ++ rightRows⟩

/-- One iteration of the per-column priority loop of
`_reconcile_timing_data`.  Reading a merged column that is absent (possible
for adversarial column names, since the membership test uses
`col.replace('_fastf1','_openf1')` but the reads use
`base_col + '_openf1'`) raises `KeyError`. -/
def timingStep (p : String) (m : DataFrame) (col : String) : Except String DataFrame :=
  if pyEndsWith col "_fastf1" && m.cols.contains (pyReplace col "_fastf1" "_openf1") then
    if m.cols.contains col && m.cols.contains (pyReplace col "_fastf1" "" ++ "_openf1") then
      Except.ok (dropAllCol (dropAllCol
        (setCol m (pyReplace col "_fastf1" "")
          (if p == "fastf1"
           then combineFirstVals (m.colVals col)
                  (m.colVals (pyReplace col "_fastf1" "" ++ "_openf1"))
           else combineFirstVals (m.colVals (pyReplace col "_fastf1" "" ++ "_openf1"))
                  (m.colVals col)))
        col) (pyReplace col "_fastf1" "" ++ "_openf1"))
    else Except.error "KeyError"
  else Except.ok m

/-- The loop `for col in merged.columns: ...` — the iteration sequence is
the snapshot of the columns taken at loop entry. -/
def timingLoop (p : String) : List String → DataFrame → Except String DataFrame
  | [], m => Except.ok m
  | col :: rest, m => (timingStep p m col).bind (timingLoop p rest)

def timing_merged0 (f o : DataFrame) : DataFrame :=
  let L := timing_prepare f o
  outerMerge L.fLocal L.oLocal (timing_merge_cols L.fLocal L.oLocal)

/-- `try` block of `_reconcile_timing_data` after the normalization steps:
no shared key falls back to the (local) priority frame, otherwise outer
merge plus the per-column priority loop. -/
def timing_body (f o : DataFrame) (p : String) : Except String DataFrame :=
  let L := timing_prepare f o
  let keys := timing_merge_cols L.fLocal L.oLocal
  if keys.isEmpty then Except.ok (if p == "fastf1" then L.fLocal else L.oLocal)
  else
    let m0 := outerMerge L.fLocal L.oLocal keys
    timingLoop p m0.cols m0

/-- `ReconciliationEngine._reconcile_timing_data`.  The `except` clause
returns the *local* `fastf1_data`/`openf1_data` bindings, i.e. the frames
as already renamed/augmented by the normalization steps. -/
def reconcile_timing_data (f o : DataFrame) (p : String) : DataFrame :=
  match timing_body f o p with
  | Except.ok r => r
  | Except.error _ =>
    if p == "fastf1" then (timing_prepare f o).fLocal else (timing_prepare f o).oLocal

/-! ### Session-level dispatch -/

/-- `RECONCILIATION_PRIORITY` from config/settings.py. -/
def RECONCILIATION_PRIORITY : List (String × String) :=
  [("live_timing", "openf1"), ("telemetry", "fastf1"), ("default", "fastf1")]

structure ReconciliationEngine where
  priority_map : List (String × String)

def defaultEngine : ReconciliationEngine := ⟨RECONCILIATION_PRIORITY⟩

/-- `self.priority_map.get(data_type, self.priority_map['default'])` (a map
without a `'default'` key would raise KeyError; modelled as `""`, a corner
no claim touches). -/
def ReconciliationEngine.priority_for (eng : ReconciliationEngine) (dt : String) : String :=
  (eng.priority_map.lookup dt).getD ((eng.priority_map.lookup "default").getD "")

/-- `ReconciliationEngine.reconcile_session_data`: absence rules, then
priority lookup and category dispatch. -/
def ReconciliationEngine.reconcile_session_data (eng : ReconciliationEngine)
    (fastf1_data openf1_data : Option DataFrame) (data_type : String) : Option DataFrame :=
  match fastf1_data, openf1_data with
  | none, none => none
  | none, some y => some y
  | some x, none => some x
  | some x, some y =>
    let priority_source := eng.priority_for data_type
    if data_type == "timing" then some (reconcile_timing_data x y priority_source)
    else if data_type == "telemetry" then some (reconcile_telemetry_data x y priority_source)
    else some (generic_reconciliation x y priority_source)

/-- The caller-visible values of the two argument frames after
`reconcile_session_data` returns (only the timing strategy can mutate, and
only the fastf1 argument). -/
def ReconciliationEngine.inputs_after (eng : ReconciliationEngine)
    (fastf1_data openf1_data : Option DataFrame) (data_type : String) :
    Option DataFrame × Option DataFrame :=
  match fastf1_data, openf1_data with
  | some x, some y =>
    (if data_type == "timing" then some (timing_prepare x y).fCaller else some x, some y)
  | fo, oo => (fo, oo)

/-- Column names containing neither provider suffix as a substring: for
such names the suffix manipulation of the timing loop behaves as intended.
All realistic provider column names are clean. -/
def cleanName (s : String) : Bool :=
  !(hasOccur "_fastf1".data s.data) && !(hasOccur "_openf1".data s.data)

/-- A column of the merged timing frame whose loop iteration cannot touch
the columns derived from a fixed shared column `c` nor raise: either its
iteration is skipped outright (it does not end in `_fastf1`), or it is a
well-behaved suffixed column of some other source column `d` whose derived
names are all distinct from those of `c`. -/
def OtherSafe (c col : String) : Prop :=
  pyEndsWith col "_fastf1" = false ∨
  (let d := pyReplace col "_fastf1" ""
   pyReplace col "_fastf1" "_openf1" = d ++ "_openf1" ∧
   ¬(d = c) ∧ ¬(d = c ++ "_fastf1") ∧ ¬(d = c ++ "_openf1") ∧
   ¬(col = c) ∧ ¬(col = c ++ "_fastf1") ∧ ¬(col = c ++ "_openf1") ∧
   ¬(d ++ "_openf1" = c) ∧ ¬(d ++ "_openf1" = c ++ "_fastf1") ∧
   ¬(d ++ "_openf1" = c ++ "_openf1"))

/-! ### Concrete frames for counterexamples and witnesses -/

/-- fastf1 timing frame already carrying `Time` (so no rename copy) and a
`DriverNumber` column. -/
def cexMutF : DataFrame :=
  ⟨["Time", "DriverNumber"], [[some (Val.num 1), some (Val.num 44)]]⟩

def cexMutO : DataFrame :=
  ⟨["Time", "driver_number"], [[some (Val.num 1), some (Val.num 44)]]⟩

/-- Frame whose column names make the timing loop raise `KeyError` after
the time-rename rebinding: `a_fastf1_b` passes the `endswith`/membership
test once suffixed, but the read targets the nonexistent `a_b_openf1`. -/
def cexErrT : DataFrame :=
  ⟨["time", "a_fastf1_b", "a_openf1_b"],
   [[some (Val.num 1), some (Val.num 2), some (Val.num 3)]]⟩

def witTelF : DataFrame :=
  ⟨["time", "speed"],
   [[some (Val.num 0), some (Val.num 10)],
    [some (Val.num 50), some (Val.num 20)],
    [some (Val.num 100), some (Val.num 30)]]⟩

def witTelO : DataFrame :=
  ⟨["time", "rpm"],
   [[some (Val.num 50), some (Val.num 1)],
    [some (Val.num 100), some (Val.num 2)],
    [some (Val.num 150), some (Val.num 3)]]⟩

/-- Timing record `{time:1, driver:"VER", lap:58.2}` (numbers in tenths). -/
def witTimF : DataFrame :=
  ⟨["time", "driver", "lap"],
   [[some (Val.num 1), some (Val.str "VER"), some (Val.num 582)]]⟩

/-- Timing record `{time:1, driver:"VER", lap:58.5}` (numbers in tenths). -/
def witTimO : DataFrame :=
  ⟨["time", "driver", "lap"],
   [[some (Val.num 1), some (Val.str "VER"), some (Val.num 585)]]⟩

def witGenXY : DataFrame := ⟨["x", "y"], [[some (Val.num 1), none]]⟩

def witGenXYZ : DataFrame :=
  ⟨["x", "y", "z"], [[some (Val.num 1), some (Val.num 2), some (Val.num 3)]]⟩

def witGenXY2 : DataFrame := ⟨["x", "y"], [[none, some (Val.num 5)]]⟩

def witGenYX : DataFrame := ⟨["y", "x"], [[some (Val.num 7), some (Val.num 8)]]⟩

/-! ## Theorems: ledger and rate limiter -/

lemma delay_floor_mono : ∀ m k : Nat, m ≤ k → delay_floor m ≤ delay_floor k := by
  intro m k hmk
  unfold delay_floor
  split_ifs <;> first
    | (exfalso; omega)
    | norm_num

lemma computed_delay_eq_max (n : Nat) (j : ℚ) (h0 : 0 ≤ j) :
    computed_delay n j = max (base_delay * 2 ^ n + j) (delay_floor n) := by
  have hbase : (0:ℚ) ≤ base_delay * 2 ^ n + j := by
    have h2 : (0:ℚ) ≤ 2 ^ n := by positivity
    unfold base_delay
    nlinarith
  unfold computed_delay delay_floor
  rcases n with _ | _ | _ | k
  · have hb : (0:ℚ) ≤ base_delay + j := by simpa using hbase
    simp [max_eq_left hb]
  · norm_num
  · norm_num [max_assoc]
  · have h1 : 1 ≤ k + 3 := by omega
    have h2 : 2 ≤ k + 3 := by omega
    have h3 : 3 ≤ k + 3 := by omega
    simp only [if_pos h1, if_pos h2, if_pos h3]
    rw [max_assoc, max_assoc]
    norm_num

/-- C9: calling `mark_completed k` twice yields the same ledger state
(in-memory set and durable log) as calling it once, `is_completed k` is
true afterwards, and the second call appends nothing to the durable log. -/
theorem mark_completed_idempotent (t : ProgressTracker) (k : String) :
    (t.mark_completed k).mark_completed k = t.mark_completed k ∧
    (t.mark_completed k).is_completed k = true ∧
    ((t.mark_completed k).mark_completed k).log_file = (t.mark_completed k).log_file := by
  unfold ProgressTracker.mark_completed ProgressTracker.is_completed
  by_cases h : k ∈ t.completed_items <;> simp [h]

/-- C7: the retry delay at attempt `n` equals the exponential-backoff
formula `base * 2 ^ n + jitter` raised to the tiered floor for `n`; hence
it is at least that floor (60 for `n ≥ 1`, 300 for `n ≥ 2`, 1800 for
`n ≥ 3`), and the floors are non-decreasing in the attempt number. -/
theorem backoff_delay_tiered_floors (n : Nat) (j : ℚ) (h0 : 0 ≤ j) (h1 : j < 1) :
    computed_delay n j = max (base_delay * 2 ^ n + j) (delay_floor n) ∧
    delay_floor n ≤ computed_delay n j ∧
    (1 ≤ n → 60 ≤ computed_delay n j) ∧
    (2 ≤ n → 300 ≤ computed_delay n j) ∧
    (3 ≤ n → 1800 ≤ computed_delay n j) ∧
    (∀ m k : Nat, m ≤ k → delay_floor m ≤ delay_floor k) := by
  have heq := computed_delay_eq_max n j h0
  have hfloor : delay_floor n ≤ computed_delay n j := by
    rw [heq]; exact le_max_right _ _
  refine ⟨heq, hfloor, ?_, ?_, ?_, delay_floor_mono⟩
  · intro hn
    refine le_trans ?_ hfloor
    unfold delay_floor
    split_ifs <;> first | norm_num | omega
  · intro hn
    refine le_trans ?_ hfloor
    unfold delay_floor
    split_ifs <;> first | norm_num | omega
  · intro hn
    refine le_trans ?_ hfloor
    unfold delay_floor
    split_ifs <;> first | norm_num | omega

theorem backoff_delay_tiered_floors_witness :
    computed_delay 3 0 = max (base_delay * 2 ^ 3 + 0) (delay_floor 3) ∧
    delay_floor 3 ≤ computed_delay 3 0 ∧
    (1 ≤ 3 → 60 ≤ computed_delay 3 0) ∧
    (2 ≤ 3 → 300 ≤ computed_delay 3 0) ∧
    (3 ≤ 3 → 1800 ≤ computed_delay 3 0) ∧
    (∀ m k : Nat, m ≤ k → delay_floor m ≤ delay_floor k) :=
  backoff_delay_tiered_floors 3 0 (le_refl 0) zero_lt_one

/-- C8: a wrapped fetch whose failure is not classified as a rate-limit
signal is never retried: exactly one invocation occurs, no sleep happens,
and the error is surfaced to the caller unchanged. -/
theorem fast_fail_non_rate_limit {α : Type} (op : Nat → Except String α) (jitter : Nat → ℚ)
    (e : String) (h1 : op 0 = Except.error e) (h2 : isRateLimitError e = false) :
    apply_rate_limiting op jitter = (Except.error e, 1, []) := by
  unfold apply_rate_limiting max_retries
  rw [show (5:Nat) = 4 + 1 from rfl]
  unfold apply_rate_limiting_go
  rw [h1]
  simp [h2]

theorem fast_fail_non_rate_limit_witness :
    apply_rate_limiting (fun _ => (Except.error "boom" : Except String Unit)) (fun _ => 0) =
      (Except.error "boom", 1, []) :=
  fast_fail_non_rate_limit _ _ "boom" rfl (by decide)

/-! ## Theorems: reconciliation engine -/

/-- C1: for every engine configuration and category, two absent inputs
reconcile to an absent result, and exactly one present input is returned
unchanged, from either argument position, before any merge is attempted. -/
theorem reconcile_absence_rules (eng : ReconciliationEngine) (dt : String) (X Y : DataFrame) :
    eng.reconcile_session_data none none dt = none ∧
    eng.reconcile_session_data (some X) none dt = some X ∧
    eng.reconcile_session_data none (some Y) dt = some Y :=
  ⟨rfl, rfl, rfl⟩

/-- C2 counterexample: for the timing category, when the fastf1 input
already carries `Time` (so no rename copy shields it) and a `DriverNumber`
column while the openf1 input carries `driver_number`, the call mutates the
caller's fastf1 frame in place (a `driver_number` column appears), so the
inputs are not equal to their values before the call. -/
theorem timing_mutates_fastf1_input :
    (defaultEngine.inputs_after (some cexMutF) (some cexMutO) "timing").1 ≠ some cexMutF := by
  decide

/-- C2 amended: reconcile never mutates the openf1 input, nor any input of
a non-timing category; the fastf1 input is also returned unchanged unless
the timing strategy's driver-column derivation fires on it without a
preceding rename copy (`timing_mutates`). -/
lemma timing_prepare_fCaller_eq (x y : DataFrame) (hm : timing_mutates x y = false) :
    (timing_prepare x y).fCaller = x := by
  unfold timing_mutates at hm
  unfold timing_prepare
  cases hb1 : (!(x.cols.contains "Time") && x.cols.contains "time") with
  | true =>
    simp only [hb1] at hm ⊢
    rw [apply_ite TimingPrep.fCaller]
    simp
  | false =>
    simp only [hb1] at hm ⊢
    simp only [Bool.not_false, Bool.true_and] at hm
    simp at hm
    rw [apply_ite TimingPrep.fCaller]
    have hm2 : ¬("DriverNumber" ∈ x.cols ∧
        "driver_number" ∈ (if "Time" ∉ y.cols ∧ "time" ∈ y.cols then
          renameCols y [("time", "Time")] else y).cols) :=
      fun hc => hm hc.1 hc.2
    simp [hm2]

theorem reconcile_no_mutation_amended (eng : ReconciliationEngine)
    (f o : Option DataFrame) (dt : String)
    (h : ∀ x y, f = some x → o = some y → dt = "timing" → timing_mutates x y = false) :
    eng.inputs_after f o dt = (f, o) := by
  match f, o with
  | none, none => rfl
  | none, some y => rfl
  | some x, none => rfl
  | some x, some y =>
    unfold ReconciliationEngine.inputs_after
    by_cases hdt : dt = "timing"
    · subst hdt
      have hm := h x y rfl rfl rfl
      simp [timing_prepare_fCaller_eq x y hm]
    · have hne : (dt == "timing") = false := by
        simpa [beq_iff_eq] using hdt
      simp [hne]

theorem reconcile_no_mutation_amended_witness :
    defaultEngine.inputs_after (some witGenXY) (some witGenXY2) "weather" =
      (some witGenXY, some witGenXY2) :=
  reconcile_no_mutation_amended defaultEngine (some witGenXY) (some witGenXY2) "weather"
    (fun _ _ _ _ hdt => absurd hdt (by decide))

/-- C3 counterexample: an internal merge error in the timing strategy does
not return the priority source's *unmodified* input.  With these column
names the per-column loop raises `KeyError` (the membership test uses
`col.replace('_fastf1','_openf1')` but the read uses `base_col+'_openf1'`),
and the `except` clause returns the locally renamed frame (`time` already
renamed to `Time`), which differs from the input. -/
theorem timing_fallback_modified_input :
    timing_body cexErrT cexErrT "fastf1" = Except.error "KeyError" ∧
    reconcile_timing_data cexErrT cexErrT "fastf1" ≠ cexErrT := by
  constructor
  · rfl
  · decide

/-- C3 amended: an internal error during a category's merge computation is
never propagated; the strategy returns the priority source's data — the
unmodified input for the telemetry and generic strategies, and the frame as
already locally renamed/augmented by the normalization steps for the timing
strategy (which can differ from the raw input). -/
theorem strategy_error_fallback_amended (f o : DataFrame) (p : String) :
    (∀ e, telemetry_body f o p = Except.error e →
       reconcile_telemetry_data f o p = (if p == "fastf1" then f else o)) ∧
    (∀ e, generic_body f o p = Except.error e →
       generic_reconciliation f o p = (if p == "fastf1" then f else o)) ∧
    (∀ e, timing_body f o p = Except.error e →
       reconcile_timing_data f o p =
         (if p == "fastf1" then (timing_prepare f o).fLocal else (timing_prepare f o).oLocal)) := by
  refine ⟨fun e he => ?_, fun e he => ?_, fun e he => ?_⟩
  · unfold reconcile_telemetry_data
    rw [he]
  · unfold generic_reconciliation
    rw [he]
  · unfold reconcile_timing_data
    rw [he]

theorem strategy_error_fallback_amended_witness :
    reconcile_timing_data cexErrT cexErrT "fastf1" =
      (if "fastf1" == "fastf1" then (timing_prepare cexErrT cexErrT).fLocal
       else (timing_prepare cexErrT cexErrT).oLocal) :=
  (strategy_error_fallback_amended cexErrT cexErrT "fastf1").2.2 "KeyError" rfl

/-! ## DataFrame toolkit lemmas -/

lemma padTo_length (r : Row) (n : Nat) : (padTo r n).length = n := by
  unfold padTo
  rw [List.length_take, List.length_append, List.length_replicate]
  omega

lemma padTo_eq_self (r : Row) {n : Nat} (h : r.length = n) : padTo r n = r := by
  unfold padTo
  subst h
  simp

lemma cellLookup_none (ps : List (String × Option Val)) (name : String)
    (h : ∀ q ∈ ps, ¬(q.1 = name)) : cellLookup ps name = none := by
  induction ps with
  | nil => rfl
  | cons q ps ih =>
    have h1 : (q.1 == name) = false :=
      beq_eq_false_iff_ne.mpr (h q (List.mem_cons_self q ps))
    simp only [cellLookup, h1, Bool.false_eq_true, if_false]
    exact ih (fun q2 hq2 => h q2 (List.mem_cons_of_mem _ hq2))

lemma cellLookup_skip (ps qs : List (String × Option Val)) (name : String)
    (h : ∀ q ∈ ps, ¬(q.1 = name)) :
    cellLookup (ps ++ qs) name = cellLookup qs name := by
  induction ps with
  | nil => rfl
  | cons q ps ih =>
    have h1 : (q.1 == name) = false :=
      beq_eq_false_iff_ne.mpr (h q (List.mem_cons_self q ps))
    simp only [List.cons_append, cellLookup, h1, Bool.false_eq_true, if_false]
    exact ih (fun q2 hq2 => h q2 (List.mem_cons_of_mem _ hq2))

lemma cellLookup_append_right_none (ps qs : List (String × Option Val)) (name : String)
    (h : ∀ q ∈ qs, ¬(q.1 = name)) :
    cellLookup (ps ++ qs) name = cellLookup ps name := by
  induction ps with
  | nil => exact cellLookup_none qs name h
  | cons q ps ih =>
    by_cases hq : q.1 = name
    · have h1 : (q.1 == name) = true := by simp [hq]
      simp only [List.cons_append, cellLookup, h1, if_true]
    · have h1 : (q.1 == name) = false := beq_eq_false_iff_ne.mpr hq
      simp only [List.cons_append, cellLookup, h1, Bool.false_eq_true, if_false]
      exact ih

lemma cellLookup_filterOut (ps : List (String × Option Val)) (c name : String)
    (hne : ¬(c = name)) :
    cellLookup (ps.filter (fun q => !(q.1 == c))) name = cellLookup ps name := by
  induction ps with
  | nil => rfl
  | cons q ps ih =>
    by_cases hq : q.1 = c
    · have h1 : (q.1 == c) = true := by simp [hq]
      have h2 : (q.1 == name) = false := beq_eq_false_iff_ne.mpr (by rw [hq]; exact hne)
      simp only [List.filter_cons, h1, Bool.not_true, Bool.false_eq_true, if_false,
        cellLookup, h2, ih]
    · have h1 : (q.1 == c) = false := beq_eq_false_iff_ne.mpr hq
      simp only [List.filter_cons, h1, Bool.not_false, if_true, cellLookup, ih]

lemma cellLookup_map_ite_ne (ps : List (String × Option Val)) (c name : String)
    (v : Option Val) (hne : ¬(c = name)) :
    cellLookup (ps.map (fun q => (q.1, if q.1 == c then v else q.2))) name =
      cellLookup ps name := by
  induction ps with
  | nil => rfl
  | cons q ps ih =>
    simp only [List.map_cons, cellLookup]
    by_cases hq : q.1 = name
    · have h1 : (q.1 == name) = true := by simp [hq]
      have h2 : (q.1 == c) = false :=
        beq_eq_false_iff_ne.mpr (by rw [hq]; exact fun h => hne h.symm)
      simp [h1, h2]
    · have h1 : (q.1 == name) = false := beq_eq_false_iff_ne.mpr hq
      simp only [h1, Bool.false_eq_true, if_false]
      exact ih

lemma cellLookup_map_ite_self (ps : List (String × Option Val)) (c : String)
    (v : Option Val) (h : c ∈ ps.map Prod.fst) :
    cellLookup (ps.map (fun q => (q.1, if q.1 == c then v else q.2))) c = v := by
  induction ps with
  | nil => simp at h
  | cons q ps ih =>
    simp only [List.map_cons, cellLookup]
    by_cases hq : q.1 = c
    · have h1 : (q.1 == c) = true := by simp [hq]
      simp [h1]
    · have h1 : (q.1 == c) = false := beq_eq_false_iff_ne.mpr hq
      simp only [h1, Bool.false_eq_true, if_false]
      apply ih
      simp only [List.map_cons, List.mem_cons] at h
      rcases h with h | h
      · exact absurd h.symm hq
      · exact h

lemma filter_map_fst {β : Type} (ps : List (String × β)) (P : String → Bool) :
    (ps.filter (fun q => P q.1)).map Prod.fst = (ps.map Prod.fst).filter P := by
  induction ps with
  | nil => rfl
  | cons q ps ih =>
    by_cases hq : P q.1 = true
    · simp [List.filter_cons, hq, ih]
    · have hq2 : P q.1 = false := by revert hq; cases P q.1 <;> simp
      simp [List.filter_cons, hq2, ih]

lemma zip_map_fst_snd {α β : Type} (l : List (α × β)) :
    (l.map Prod.fst).zip (l.map Prod.snd) = l := by
  rw [List.zip_map']
  simp

lemma zip_pairs_fst (cols : List String) (r : Row) :
    (cols.zip (padTo r cols.length)).map Prod.fst = cols :=
  List.map_fst_zip _ _ (by rw [padTo_length])

lemma zip_pairs_length (cols : List String) (r : Row) :
    (cols.zip (padTo r cols.length)).length = cols.length := by
  rw [List.length_zip, padTo_length, min_self]

lemma enum_map_snd_comp {β : Type} (l : List Row) (g : Row → β) :
    l.enum.map (fun p => g p.2) = l.map g := by
  have : (fun p : Nat × Row => g p.2) = g ∘ Prod.snd := rfl
  rw [this, ← List.map_map, List.enum_map_snd]

lemma enum_map_fst_comp {β : Type} (l : List Row) (g : Nat → β) :
    l.enum.map (fun p => g p.1) = (List.range l.length).map g := by
  rw [List.enum_eq_zip_range]
  have : (fun p : Nat × Row => g p.1) = g ∘ Prod.fst := rfl
  rw [this, ← List.map_map, List.map_fst_zip _ _ (by rw [List.length_range])]

lemma colVals_length (df : DataFrame) (name : String) :
    (df.colVals name).length = df.rows.length := by
  unfold DataFrame.colVals
  rw [List.length_map]

lemma combineFirstVals_length (a b : List (Option Val)) :
    (combineFirstVals a b).length = max a.length b.length := by
  unfold combineFirstVals
  rw [List.length_map, List.length_range]

lemma combineFirstVals_getD (a b : List (Option Val)) (i : Nat)
    (h : i < max a.length b.length) :
    (combineFirstVals a b).getD i none =
      (match a.getD i none with
       | some v => some v
       | none => b.getD i none) := by
  unfold combineFirstVals
  rw [List.getD_eq_getElem?_getD, List.getElem?_map, List.getElem?_range h]
  rfl

lemma setCol_cols_of_mem (df : DataFrame) (c : String) (vs : List (Option Val))
    (h : df.cols.contains c = true) : (setCol df c vs).cols = df.cols := by
  unfold setCol
  rw [if_pos h]

lemma setCol_rows_length (df : DataFrame) (c : String) (vs : List (Option Val)) :
    (setCol df c vs).rows.length = df.rows.length := by
  unfold setCol
  split <;> simp [List.length_map, List.enum_length]

lemma dropAllCol_rows_length (df : DataFrame) (c : String) :
    (dropAllCol df c).rows.length = df.rows.length := by
  unfold dropAllCol
  simp [List.length_map]

lemma dropAllCol_cols (df : DataFrame) (c : String) :
    (dropAllCol df c).cols = df.cols.filter (fun c2 => !(c2 == c)) := rfl

lemma setCol_cols_of_not_mem (df : DataFrame) (c : String) (vs : List (Option Val))
    (h : ¬(df.cols.contains c = true)) : (setCol df c vs).cols = df.cols ++ [c] := by
  unfold setCol
  rw [if_neg h]

/-- Cell access into a row produced by the overwrite branch of `setCol`
equals lookup in the pair list with the ite pushed into the pairs. -/
lemma cell_row_map_ite (df : DataFrame) (c : String) (v : Option Val) (r : Row) (name : String) :
    cellLookup (df.cols.zip (padTo
      ((df.cols.zip (padTo r df.cols.length)).map (fun q => if q.1 == c then v else q.2))
      df.cols.length)) name =
    cellLookup ((df.cols.zip (padTo r df.cols.length)).map
      (fun q => (q.1, if q.1 == c then v else q.2))) name := by
  set pairs := df.cols.zip (padTo r df.cols.length) with hp
  have hlen : (pairs.map (fun q => if q.1 == c then v else q.2)).length = df.cols.length := by
    rw [List.length_map, hp, zip_pairs_length]
  rw [padTo_eq_self _ hlen]
  conv_lhs => rw [show df.cols = pairs.map Prod.fst from by rw [hp, zip_pairs_fst]]
  rw [List.zip_map']

lemma colVals_setCol_ne (df : DataFrame) (c : String) (vs : List (Option Val)) (name : String)
    (hne : ¬(c = name)) :
    (setCol df c vs).colVals name = df.colVals name := by
  unfold setCol
  by_cases hmem : df.cols.contains c = true
  · rw [if_pos hmem]
    unfold DataFrame.colVals DataFrame.cell
    rw [List.map_map,
      ← enum_map_snd_comp df.rows
        (fun r => cellLookup (df.cols.zip (padTo r df.cols.length)) name)]
    apply List.map_congr_left
    intro p _
    show cellLookup (df.cols.zip (padTo _ df.cols.length)) name = _
    rw [cell_row_map_ite]
    exact cellLookup_map_ite_ne _ c name _ hne
  · rw [if_neg hmem]
    unfold DataFrame.colVals DataFrame.cell
    rw [List.map_map,
      ← enum_map_snd_comp df.rows
        (fun r => cellLookup (df.cols.zip (padTo r df.cols.length)) name)]
    apply List.map_congr_left
    intro p _
    show cellLookup ((df.cols ++ [c]).zip (padTo _ (df.cols ++ [c]).length)) name = _
    have hlen : (padTo p.2 df.cols.length ++ [vs.getD p.1 none]).length =
        (df.cols ++ [c]).length := by
      simp [padTo_length]
    rw [padTo_eq_self _ hlen, List.zip_append (by rw [padTo_length])]
    apply cellLookup_append_right_none
    intro q hq
    have hq2 : q = (c, vs.getD p.1 none) := by simpa using hq
    rw [hq2]
    exact hne

lemma colVals_setCol_self (df : DataFrame) (c : String) (vs : List (Option Val)) :
    (setCol df c vs).colVals c = (List.range df.rows.length).map (fun i => vs.getD i none) := by
  unfold setCol
  by_cases hmem : df.cols.contains c = true
  · rw [if_pos hmem]
    unfold DataFrame.colVals DataFrame.cell
    rw [List.map_map, ← enum_map_fst_comp df.rows (fun i => vs.getD i none)]
    apply List.map_congr_left
    intro p _
    show cellLookup (df.cols.zip (padTo _ df.cols.length)) c = _
    rw [cell_row_map_ite]
    apply cellLookup_map_ite_self
    rw [zip_pairs_fst]
    simpa using hmem
  · rw [if_neg hmem]
    unfold DataFrame.colVals DataFrame.cell
    rw [List.map_map, ← enum_map_fst_comp df.rows (fun i => vs.getD i none)]
    apply List.map_congr_left
    intro p _
    show cellLookup ((df.cols ++ [c]).zip (padTo _ (df.cols ++ [c]).length)) c = _
    have hlen : (padTo p.2 df.cols.length ++ [vs.getD p.1 none]).length =
        (df.cols ++ [c]).length := by
      simp [padTo_length]
    rw [padTo_eq_self _ hlen, List.zip_append (by rw [padTo_length])]
    rw [cellLookup_skip]
    · simp [cellLookup]
    · intro q hq
      have hq1 : q.1 ∈ df.cols := by
        have := List.mem_map_of_mem Prod.fst hq
        rwa [zip_pairs_fst] at this
      intro hqc
      rw [hqc] at hq1
      exact hmem (by simpa using hq1)

/-- Invariant of the per-column `combine_first` loop of the generic
strategy over the remaining (distinct) columns: visited columns hold the
first-non-null merge of the frame's own value with the secondary's, and
untouched columns keep their values. -/
lemma generic_fold_spec (secondary : DataFrame) (pcols : List String) (n : Nat) :
    ∀ (todo : List String) (r : DataFrame),
      r.cols = pcols → r.rows.length = n → (∀ c ∈ todo, c ∈ pcols) → todo.Nodup →
      (todo.foldl (genericStep secondary) r).cols = pcols ∧
      (todo.foldl (genericStep secondary) r).rows.length = n ∧
      (∀ c, c ∉ todo → (todo.foldl (genericStep secondary) r).colVals c = r.colVals c) ∧
      (∀ c ∈ todo, (todo.foldl (genericStep secondary) r).colVals c =
        (List.range n).map (fun i =>
          match (r.colVals c).getD i none with
          | some v => some v
          | none => (secondary.colVals c).getD i none)) := by
  intro todo
  induction todo with
  | nil =>
    intro r hc hn _ _
    exact ⟨hc, hn, fun c _ => rfl, fun c hc2 => absurd hc2 (List.not_mem_nil c)⟩
  | cons c0 todo ih =>
    intro r hc hn hsub hnd
    have hc0mem : c0 ∈ pcols := hsub c0 (List.mem_cons_self _ _)
    have hcontains : r.cols.contains c0 = true := by rw [hc]; simpa using hc0mem
    have h1cols : (genericStep secondary r c0).cols = pcols := by
      unfold genericStep; rw [setCol_cols_of_mem _ _ _ hcontains, hc]
    have h1len : (genericStep secondary r c0).rows.length = n := by
      unfold genericStep; rw [setCol_rows_length, hn]
    have hsub2 : ∀ c ∈ todo, c ∈ pcols := fun c h => hsub c (List.mem_cons_of_mem _ h)
    have hc0nin : c0 ∉ todo := (List.nodup_cons.mp hnd).1
    obtain ⟨ih1, ih2, ih3, ih4⟩ :=
      ih (genericStep secondary r c0) h1cols h1len hsub2 (List.nodup_cons.mp hnd).2
    have hfold : (c0 :: todo).foldl (genericStep secondary) r =
        todo.foldl (genericStep secondary) (genericStep secondary r c0) := rfl
    refine ⟨by rw [hfold]; exact ih1, by rw [hfold]; exact ih2, ?_, ?_⟩
    · intro c hcn
      rw [hfold, ih3 c (fun h => hcn (List.mem_cons_of_mem _ h))]
      have hne : ¬(c0 = c) := fun h => hcn (h ▸ List.mem_cons_self _ _)
      unfold genericStep
      exact colVals_setCol_ne _ _ _ _ hne
    · intro c hcmem
      rcases List.mem_cons.mp hcmem with hceq | hcin
      · subst hceq
        rw [hfold, ih3 c hc0nin]
        unfold genericStep
        rw [colVals_setCol_self, hn]
        apply List.map_congr_left
        intro i hi
        have hin : i < n := List.mem_range.mp hi
        have hlt : i < max (r.colVals c).length (secondary.colVals c).length := by
          rw [colVals_length, hn]
          exact lt_of_lt_of_le hin (le_max_left _ _)
        exact combineFirstVals_getD _ _ i hlt
      · rw [hfold, ih4 c hcin]
        have hne : ¬(c0 = c) := fun h => hc0nin (h ▸ hcin)
        unfold genericStep
        rw [colVals_setCol_ne _ _ _ _ hne]

lemma colVals_dropAllCol_ne (df : DataFrame) (c name : String) (hne : ¬(c = name)) :
    (dropAllCol df c).colVals name = df.colVals name := by
  unfold dropAllCol DataFrame.colVals DataFrame.cell
  rw [List.map_map]
  apply List.map_congr_left
  intro r _
  show cellLookup ((df.cols.filter _).zip (padTo _ (df.cols.filter _).length)) name = _
  set pairs := df.cols.zip (padTo r df.cols.length) with hp
  have hsnd : (fun q : String × Option Val => q.2) = Prod.snd := rfl
  have hcols : (pairs.filter (fun q => !(q.1 == c))).map Prod.fst =
      df.cols.filter (fun c2 => !(c2 == c)) := by
    rw [filter_map_fst pairs (fun a => !(a == c)), hp, zip_pairs_fst]
  have hlen : ((pairs.filter (fun q => !(q.1 == c))).map (fun q => q.2)).length =
      (df.cols.filter (fun c2 => !(c2 == c))).length := by
    rw [List.length_map, ← hcols, List.length_map]
  rw [padTo_eq_self _ hlen, hsnd, ← hcols, zip_map_fst_snd]
  exact cellLookup_filterOut pairs c name hne

/-- C6: the generic strategy returns the priority source's data unchanged
when the two inputs differ structurally (different column count or
different column names), and when the structures match it merges cell by
cell, the priority source's value winning whenever non-null (the
per-column loop requires distinct column labels to speak of cells by
name). -/
theorem generic_structural_rules (f o : DataFrame) (p : String) :
    ((primary_of f o p).cols.length ≠ (secondary_of f o p).cols.length ∨
       (primary_of f o p).cols ≠ (secondary_of f o p).cols →
     generic_reconciliation f o p = primary_of f o p) ∧
    ((primary_of f o p).cols = (secondary_of f o p).cols →
     (primary_of f o p).cols.Nodup →
     ∀ c ∈ (primary_of f o p).cols,
       (generic_reconciliation f o p).colVals c =
         (List.range (primary_of f o p).rows.length).map (fun i =>
           match ((primary_of f o p).colVals c).getD i none with
           | some v => some v
           | none => ((secondary_of f o p).colVals c).getD i none)) := by
  constructor
  · intro hmis
    unfold generic_reconciliation generic_body
    rw [if_pos hmis]
  · intro hceq hnd c hcm
    unfold generic_reconciliation generic_body
    have hcond : ¬((primary_of f o p).cols.length ≠ (secondary_of f o p).cols.length ∨
        (primary_of f o p).cols ≠ (secondary_of f o p).cols) := by
      push_neg
      exact ⟨by rw [hceq], hceq⟩
    rw [if_neg hcond]
    obtain ⟨_, _, _, h4⟩ :=
      generic_fold_spec (secondary_of f o p) (primary_of f o p).cols
        (primary_of f o p).rows.length (primary_of f o p).cols (primary_of f o p)
        rfl rfl (fun c2 h => h) hnd
    exact h4 c hcm

theorem generic_structural_rules_witness :
    generic_reconciliation witGenXY witGenXYZ "fastf1" = primary_of witGenXY witGenXYZ "fastf1" ∧
    (generic_reconciliation witGenXY witGenXY2 "fastf1").colVals "x" =
      (List.range (primary_of witGenXY witGenXY2 "fastf1").rows.length).map (fun i =>
        match ((primary_of witGenXY witGenXY2 "fastf1").colVals "x").getD i none with
        | some v => some v
        | none => ((secondary_of witGenXY witGenXY2 "fastf1").colVals "x").getD i none) :=
  ⟨(generic_structural_rules witGenXY witGenXYZ "fastf1").1 (by decide),
   (generic_structural_rules witGenXY witGenXY2 "fastf1").2 (by decide) (by decide) "x" (by decide)⟩

/-- C10: the structural-compatibility check of the generic strategy
compares columns positionally, so two inputs whose column names agree as
sets but are listed in a different order are treated as mismatched and the
priority source's data is returned unchanged, with no cell-level merge. -/
theorem generic_positional_column_check (f o : DataFrame) (p : String)
    (hset : (primary_of f o p).cols.toFinset = (secondary_of f o p).cols.toFinset)
    (hne : (primary_of f o p).cols ≠ (secondary_of f o p).cols) :
    generic_reconciliation f o p = primary_of f o p := by
  unfold generic_reconciliation generic_body
  rw [if_pos (Or.inr hne)]

theorem generic_positional_column_check_witness :
    generic_reconciliation witGenXY witGenYX "fastf1" = primary_of witGenXY witGenYX "fastf1" :=
  generic_positional_column_check witGenXY witGenYX "fastf1" (by decide) (by decide)

/-! ## Telemetry window lemmas -/

lemma append_secondary_ne_time (c : String) : ¬(c ++ "_secondary" = "time") := by
  intro h
  have hd := congrArg String.data h
  rw [String.data_append] at hd
  have hl := congrArg List.length hd
  rw [List.length_append] at hl
  have h10 : ("_secondary".data).length = 10 := rfl
  have h4 : ("time".data).length = 4 := rfl
  omega

lemma foldl_fillStep_time (baseCols : List String) :
    ∀ (l : List String) (m : DataFrame), (∀ c ∈ l, ¬(c = "time")) →
      (l.foldl (fillStep baseCols) m).colVals "time" = m.colVals "time" := by
  intro l
  induction l with
  | nil => intro m _; rfl
  | cons c l ih =>
    intro m hl
    have hc : ¬(c = "time") := hl c (List.mem_cons_self _ _)
    have hstep : (fillStep baseCols m c).colVals "time" = m.colVals "time" := by
      unfold fillStep
      split
      · rw [colVals_dropAllCol_ne _ _ _ (append_secondary_ne_time c),
            colVals_setCol_ne _ _ _ _ hc]
      · rfl
    calc ((c :: l).foldl (fillStep baseCols) m).colVals "time"
        = (l.foldl (fillStep baseCols) (fillStep baseCols m c)).colVals "time" := rfl
      _ = (fillStep baseCols m c).colVals "time" :=
          ih _ (fun c2 h => hl c2 (List.mem_cons_of_mem _ h))
      _ = m.colVals "time" := hstep

lemma fillLoop_colVals_time (baseCols secCols : List String) (m : DataFrame) :
    (fillLoop baseCols secCols m).colVals "time" = m.colVals "time" := by
  unfold fillLoop
  apply foldl_fillStep_time
  intro c hc
  have h2 := (List.mem_filter.mp hc).2
  simpa using h2

lemma timeValsE_ok_spec (df : DataFrame) (l : List (Option Int))
    (h : timeValsE df = Except.ok l) : l = timesOf df := by
  unfold timeValsE at h
  split_ifs at h with h1 h2
  injection h with h
  exact h.symm

lemma rowInWindow_spec (df : DataFrame) (lo hi : Option Int) (r : Row)
    (h : rowInWindow df lo hi r = true) :
    ∃ t l u, df.cell "time" r = some (Val.num t) ∧ lo = some l ∧ hi = some u ∧
      l ≤ t ∧ t ≤ u := by
  unfold rowInWindow at h
  rw [Bool.and_eq_true] at h
  obtain ⟨hA, hB⟩ := h
  cases hcell : df.cell "time" r with
  | none => rw [hcell] at hA; simp at hA
  | some v =>
    cases v with
    | str s => rw [hcell] at hA; simp at hA
    | num t =>
      cases lo with
      | none => rw [hcell] at hA; simp at hA
      | some l =>
        cases hi with
        | none => rw [hcell] at hB; simp at hB
        | some u =>
          rw [hcell] at hA hB
          simp at hA hB
          exact ⟨t, l, u, rfl, rfl, rfl, hA, hB⟩

lemma mem_insertSortedRow (le : Row → Row → Bool) (x a : Row) :
    ∀ l, a ∈ insertSortedRow le x l ↔ a = x ∨ a ∈ l := by
  intro l
  induction l with
  | nil => simp [insertSortedRow]
  | cons y ys ih =>
    unfold insertSortedRow
    split
    · simp [List.mem_cons]
    · rw [List.mem_cons, ih, List.mem_cons]
      tauto

lemma mem_sortRowsBy (le : Row → Row → Bool) (a : Row) :
    ∀ l, a ∈ sortRowsBy le l ↔ a ∈ l := by
  intro l
  induction l with
  | nil => simp [sortRowsBy]
  | cons x xs ih =>
    unfold sortRowsBy
    rw [mem_insertSortedRow, ih]
    exact (List.mem_cons).symm

lemma projNonTime_length (sec : DataFrame) (ro : Row) :
    (projNonTime sec ro).length = (sec.cols.filter (fun c => !(c == "time"))).length := by
  unfold projNonTime
  rw [List.length_map]
  have hm := congrArg List.length
    (filter_map_fst (sec.cols.zip (padTo ro sec.cols.length)) (fun a => !(a == "time")))
  rw [List.length_map, zip_pairs_fst] at hm
  exact hm

lemma merge_asof_cell_time (base sec : DataFrame) :
    ∀ r2 ∈ (merge_asof base sec).rows, ∃ r ∈ base.rows,
      (merge_asof base sec).cell "time" r2 = base.cell "time" r := by
  intro r2 hr2
  unfold merge_asof at hr2 ⊢
  obtain ⟨r, hr, hF⟩ := List.mem_map.mp hr2
  refine ⟨r, hr, ?_⟩
  rw [← hF]
  unfold DataFrame.cell
  set secCols := (sec.cols.filter (fun c => !(c == "time"))).map
    (fun c => if base.cols.contains c then c ++ "_secondary" else c) with hsc
  set ext := (match rowTimeKey base r with
    | some t =>
      match asofNearest sec t with
      | some ro => projNonTime sec ro
      | none => List.replicate secCols.length none
    | none => List.replicate secCols.length none) with hext
  have hextlen : ext.length = secCols.length := by
    rw [hext]
    cases htk : rowTimeKey base r with
    | none => simp
    | some t =>
      show (match asofNearest sec t with
        | some ro => projNonTime sec ro
        | none => List.replicate secCols.length none).length = secCols.length
      cases han : asofNearest sec t with
      | none => simp
      | some ro => simp [projNonTime_length, hsc, List.length_map]
  have hlen : (padTo r base.cols.length ++ ext).length = (base.cols ++ secCols).length := by
    rw [List.length_append, List.length_append, padTo_length, hextlen]
  rw [padTo_eq_self _ hlen, List.zip_append (by rw [padTo_length])]
  apply cellLookup_append_right_none
  intro q hq
  have hq1 : q.1 ∈ secCols := (List.mem_zip hq).1
  rw [hsc] at hq1
  obtain ⟨c, hcmem, hcq⟩ := List.mem_map.mp hq1
  intro hqt
  rw [← hcq] at hqt
  by_cases hb : base.cols.contains c = true
  · rw [if_pos hb] at hqt
    exact append_secondary_ne_time c hqt
  · rw [if_neg hb] at hqt
    have := (List.mem_filter.mp hcmem).2
    rw [hqt] at this
    simp at this

/-- Every row of the merged telemetry frame (priority side filtered to
`[lo, hi]`, sorted, asof-joined, gap-filled) carries a time inside the
window, which in particular is defined. -/
lemma telemetry_window_core (X Y : DataFrame) (lo hi : Option Int) (m : DataFrame)
    (hm : fillLoop (filterWindow X lo hi).cols (filterWindow Y lo hi).cols
        (merge_asof (sortByTime (filterWindow X lo hi))
          (sortByTime (filterWindow Y lo hi))) = m)
    (r : Row) (hr : r ∈ m.rows) (t : Int)
    (ht : m.cell "time" r = some (Val.num t)) :
    ∃ l u, lo = some l ∧ hi = some u ∧ l ≤ t ∧ t ≤ u := by
  subst hm
  have hval : some (Val.num t) ∈
      (fillLoop (filterWindow X lo hi).cols (filterWindow Y lo hi).cols
        (merge_asof (sortByTime (filterWindow X lo hi))
          (sortByTime (filterWindow Y lo hi)))).colVals "time" := by
    rw [← ht]
    unfold DataFrame.colVals
    exact List.mem_map_of_mem _ hr
  rw [fillLoop_colVals_time] at hval
  unfold DataFrame.colVals at hval
  obtain ⟨r2, hr2, hcell2⟩ := List.mem_map.mp hval
  obtain ⟨rb, hrb, hcellb⟩ := merge_asof_cell_time _ _ r2 hr2
  rw [hcellb] at hcell2
  have hrbmem : rb ∈ (filterWindow X lo hi).rows := (mem_sortRowsBy _ _ _).mp hrb
  have hwin : rowInWindow X lo hi rb = true := (List.mem_filter.mp hrbmem).2
  obtain ⟨t2, l, u, hct, hlo, hhi, h1, h2⟩ := rowInWindow_spec X lo hi rb hwin
  have hcc : (sortByTime (filterWindow X lo hi)).cell "time" rb = X.cell "time" rb := rfl
  rw [hcc, hct] at hcell2
  have hv : t2 = t := by
    injection hcell2 with hv1
    injection hv1 with hv2
  subst hv
  exact ⟨l, u, hlo, hhi, h1, h2⟩

/-- C4: whenever the telemetry merge body succeeds, every row of the
merged result carries a time within the overlap window
`[max(minTime_A, minTime_B), min(maxTime_A, maxTime_B)]` of the two
(renamed) inputs — records outside the window are excluded from the
merge. -/
theorem telemetry_window_exclusion (f o : DataFrame) (p : String) (m : DataFrame)
    (h : telemetry_body f o p = Except.ok m) (r : Row) (hr : r ∈ m.rows) (t : Int)
    (ht : m.cell "time" r = some (Val.num t)) :
    ∃ lo hi, telemetry_min_time f o = some lo ∧ telemetry_max_time f o = some hi ∧
      lo ≤ t ∧ t ≤ hi := by
  simp only [telemetry_body] at h
  cases h1 : timeValsE (renameCols f fastf1_mapping) with
  | error e => rw [h1] at h; simp [Except.bind] at h
  | ok ft =>
    cases h2 : timeValsE (renameCols o openf1_mapping) with
    | error e => rw [h1, h2] at h; simp [Except.bind] at h
    | ok ot =>
      rw [h1, h2] at h
      simp only [Except.bind] at h
      injection h with hm
      have hft := timeValsE_ok_spec _ _ h1
      have hot := timeValsE_ok_spec _ _ h2
      subst hft
      subst hot
      cases hp : (p == "fastf1") with
      | true =>
        simp only [hp, if_true] at hm
        obtain ⟨l, u, hlo, hhi, hb1, hb2⟩ :=
          telemetry_window_core (renameCols f fastf1_mapping) (renameCols o openf1_mapping)
            _ _ m hm r hr t ht
        exact ⟨l, u, hlo, hhi, hb1, hb2⟩
      | false =>
        simp only [hp, Bool.false_eq_true, if_false] at hm
        obtain ⟨l, u, hlo, hhi, hb1, hb2⟩ :=
          telemetry_window_core (renameCols o openf1_mapping) (renameCols f fastf1_mapping)
            _ _ m hm r hr t ht
        exact ⟨l, u, hlo, hhi, hb1, hb2⟩

/-! ## String lemmas for the timing loop -/

lemma hasOccur_append_self (pat x : List Char) (hp : pat ≠ []) :
    hasOccur pat (x ++ pat) = true := by
  induction x with
  | nil =>
    rw [List.nil_append]
    cases pat with
    | nil => exact absurd rfl hp
    | cons p pr =>
      unfold hasOccur
      rw [(List.isPrefixOf_iff_prefix).mpr List.prefix_rfl]
      simp
  | cons ch x ih =>
    rw [List.cons_append]
    unfold hasOccur
    rw [ih]
    simp

lemma hasOccur_of_prefix (pat s : List Char) (hp : pat ≠ []) (h : pat <+: s) :
    hasOccur pat s = true := by
  cases s with
  | nil =>
    rw [List.prefix_nil] at h
    exact absurd h hp
  | cons a as =>
    unfold hasOccur
    rw [(List.isPrefixOf_iff_prefix).mpr h]
    simp

lemma suffix_eq_of_length_eq {l1 l2 L : List Char} (h1 : l1 <:+ L) (h2 : l2 <:+ L)
    (h : l1.length = l2.length) : l1 = l2 := by
  rw [List.suffix_iff_eq_drop] at h1 h2
  rw [h1, h2, h]

lemma replaceGo_no_occur (pat rep : List Char) :
    ∀ (s : List Char) (fuel : Nat), hasOccur pat s = false → replaceGo pat rep fuel s = s := by
  intro s
  induction s with
  | nil => intro fuel _; cases fuel <;> rfl
  | cons ch cs ih =>
    intro fuel h
    unfold hasOccur at h
    rw [Bool.or_eq_false_iff] at h
    obtain ⟨h1, h2⟩ := h
    cases fuel with
    | zero => rfl
    | succ fu =>
      unfold replaceGo
      rw [h1]
      simp only [Bool.and_false, Bool.false_eq_true, if_false]
      rw [ih fu h2]

lemma replaceGo_append_pat (pat rep : List Char) (hp : pat ≠ [])
    (hb : ∀ k, k < pat.length → 0 < k → pat.take k ≠ pat.drop (pat.length - k)) :
    ∀ (x : List Char) (fuel : Nat), hasOccur pat x = false → x.length + pat.length ≤ fuel →
      replaceGo pat rep fuel (x ++ pat) = x ++ rep := by
  intro x
  induction x with
  | nil =>
    intro fuel _ hf
    rw [List.nil_append]
    cases fuel with
    | zero =>
      exfalso
      have : 0 < pat.length := List.length_pos.mpr hp
      omega
    | succ fu =>
      cases pat with
      | nil => exact absurd rfl hp
      | cons p pr =>
        show replaceGo (p :: pr) rep (fu + 1) (p :: pr) = [] ++ rep
        unfold replaceGo
        rw [(List.isPrefixOf_iff_prefix).mpr List.prefix_rfl]
        simp only [List.isEmpty_cons, Bool.not_false, Bool.true_and, if_true]
        rw [show (p :: pr).drop (p :: pr).length = [] from List.drop_length _]
        rw [show replaceGo (p :: pr) rep fu [] = [] from by cases fu <;> rfl]
        simp
  | cons ch x ih =>
    intro fuel hcl hf
    have hnotpre : pat.isPrefixOf (ch :: (x ++ pat)) = false := by
      cases hcon : pat.isPrefixOf (ch :: (x ++ pat)) with
      | false => rfl
      | true =>
        exfalso
        have hpre : pat <+: (ch :: x) ++ pat := by
          rw [List.cons_append]
          exact (List.isPrefixOf_iff_prefix).mp hcon
        by_cases hlen : pat.length ≤ (ch :: x).length
        · have htk : pat = ((ch :: x) ++ pat).take pat.length :=
            (List.prefix_iff_eq_take).mp hpre
          rw [List.take_append_of_le_length hlen] at htk
          have hpre2 : pat <+: (ch :: x) := htk ▸ List.take_prefix _ _
          have hocc := hasOccur_of_prefix pat (ch :: x) hp hpre2
          rw [hcl] at hocc
          simp at hocc
        · push_neg at hlen
          obtain ⟨t, ht⟩ := hpre
          have hdrop := congrArg (List.drop (ch :: x).length) ht
          rw [List.drop_append_of_le_length (le_of_lt hlen)] at hdrop
          have hR : ((ch :: x) ++ pat).drop (ch :: x).length = pat := by
            have h0 := @List.drop_append _ (ch :: x) pat 0
            simpa using h0
          rw [hR] at hdrop
          have hpre3 : pat.drop (ch :: x).length <+: pat := ⟨t, hdrop⟩
          have htake : pat.drop (ch :: x).length =
              pat.take (pat.length - (ch :: x).length) := by
            have h5 := (List.prefix_iff_eq_take).mp hpre3
            rw [List.length_drop] at h5
            exact h5
          have hk1 : 0 < pat.length - (ch :: x).length := by
            have h6 : 0 < (ch :: x).length := by simp
            omega
          have hk2 : pat.length - (ch :: x).length < pat.length := by
            have h6 : 0 < (ch :: x).length := by simp
            omega
          apply hb (pat.length - (ch :: x).length) hk2 hk1
          rw [← htake]
          congr 1
          omega
    cases fuel with
    | zero =>
      exfalso
      have h6 : (ch :: x).length = x.length + 1 := rfl
      have h7 : 0 < pat.length := List.length_pos.mpr hp
      omega
    | succ fu =>
      show replaceGo pat rep (fu + 1) ((ch :: x) ++ pat) = (ch :: x) ++ rep
      rw [List.cons_append]
      unfold replaceGo
      rw [hnotpre]
      simp only [Bool.and_false, Bool.false_eq_true, if_false]
      rw [List.cons_append]
      congr 1
      apply ih fu
      · unfold hasOccur at hcl
        rw [Bool.or_eq_false_iff] at hcl
        exact hcl.2
      · have h6 : (ch :: x).length = x.length + 1 := rfl
        omega

lemma cleanName_spec (s : String) (h : cleanName s = true) :
    hasOccur "_fastf1".data s.data = false ∧ hasOccur "_openf1".data s.data = false := by
  unfold cleanName at h
  rw [Bool.and_eq_true] at h
  obtain ⟨h1, h2⟩ := h
  constructor
  · simpa using h1
  · simpa using h2

lemma pyReplace_clean_to_openf1 (c : String) (hcl : hasOccur "_fastf1".data c.data = false) :
    pyReplace (c ++ "_fastf1") "_fastf1" "_openf1" = c ++ "_openf1" := by
  unfold pyReplace
  apply String.ext
  show replaceGo _ _ _ _ = (c ++ "_openf1").data
  simp only [String.data_append]
  apply replaceGo_append_pat
  · decide
  · decide
  · exact hcl
  · rw [List.length_append]

lemma pyReplace_clean_erase (c : String) (hcl : hasOccur "_fastf1".data c.data = false) :
    pyReplace (c ++ "_fastf1") "_fastf1" "" = c := by
  unfold pyReplace
  apply String.ext
  show replaceGo _ _ _ _ = c.data
  simp only [String.data_append]
  have h := replaceGo_append_pat "_fastf1".data "".data (by decide) (by decide) c.data
    ((c.data ++ "_fastf1".data).length) hcl (by rw [List.length_append])
  rw [show ("" : String).data = ([] : List Char) from rfl, List.append_nil] at h
  exact h

lemma pyEndsWith_append (c suf : String) : pyEndsWith (c ++ suf) suf = true := by
  unfold pyEndsWith
  rw [String.data_append]
  exact (List.isSuffixOf_iff_suffix).mpr (List.suffix_append _ _)

lemma pyEndsWith_openf1_not_fastf1 (c : String) :
    pyEndsWith (c ++ "_openf1") "_fastf1" = false := by
  cases h : pyEndsWith (c ++ "_openf1") "_fastf1" with
  | false => rfl
  | true =>
    exfalso
    unfold pyEndsWith at h
    rw [String.data_append] at h
    have h1 : "_fastf1".data <:+ c.data ++ "_openf1".data :=
      (List.isSuffixOf_iff_suffix).mp h
    have h2 : "_openf1".data <:+ c.data ++ "_openf1".data := List.suffix_append _ _
    have h3 := suffix_eq_of_length_eq h1 h2 (by decide)
    exact absurd h3 (by decide)

lemma pyEndsWith_clean_fastf1 (s : String) (hcl : hasOccur "_fastf1".data s.data = false) :
    pyEndsWith s "_fastf1" = false := by
  cases h : pyEndsWith s "_fastf1" with
  | false => rfl
  | true =>
    exfalso
    unfold pyEndsWith at h
    obtain ⟨t, ht⟩ := (List.isSuffixOf_iff_suffix).mp h
    have h2 := hasOccur_append_self "_fastf1".data t (by decide)
    rw [ht, hcl] at h2
    simp at h2

lemma string_append_suffix_ne_self (c suf : String) (hsuf : suf.data ≠ []) :
    ¬(c ++ suf = c) := by
  intro h
  have hd := congrArg String.data h
  rw [String.data_append] at hd
  have hl := congrArg List.length hd
  rw [List.length_append] at hl
  have hpos : 0 < suf.data.length := List.length_pos.mpr hsuf
  omega

lemma string_append_right_cancel {a b s : String} (h : a ++ s = b ++ s) : a = b := by
  have hd := congrArg String.data h
  rw [String.data_append, String.data_append] at hd
  exact String.ext (List.append_cancel_right hd)

lemma suffix_pair_ne (a b : String) : ¬(a ++ "_fastf1" = b ++ "_openf1") := by
  intro h
  have hd := congrArg String.data h
  rw [String.data_append, String.data_append] at hd
  have h1 : "_fastf1".data <:+ b.data ++ "_openf1".data := hd ▸ List.suffix_append a.data _
  have h2 : "_openf1".data <:+ b.data ++ "_openf1".data := List.suffix_append _ _
  exact absurd (suffix_eq_of_length_eq h1 h2 (by decide)) (by decide)

lemma clean_ne_suffixed_fastf1 (a b : String) (hcl : cleanName a = true) :
    ¬(a = b ++ "_fastf1") := by
  intro h
  have h1 := (cleanName_spec a hcl).1
  have hd := congrArg String.data h
  rw [String.data_append] at hd
  have h2 := hasOccur_append_self "_fastf1".data b.data (by decide)
  rw [← hd, h1] at h2
  simp at h2

lemma clean_ne_suffixed_openf1 (a b : String) (hcl : cleanName a = true) :
    ¬(a = b ++ "_openf1") := by
  intro h
  have h1 := (cleanName_spec a hcl).2
  have hd := congrArg String.data h
  rw [String.data_append] at hd
  have h2 := hasOccur_append_self "_openf1".data b.data (by decide)
  rw [← hd, h1] at h2
  simp at h2

/-! ## Timing loop lemmas -/

lemma contains_setCol (m : DataFrame) (c x : String) (vs : List (Option Val))
    (h : m.cols.contains x = true) : (setCol m c vs).cols.contains x = true := by
  unfold setCol
  split
  · exact h
  · have hm : x ∈ m.cols := by simpa using h
    have hm2 : x ∈ m.cols ++ [c] := List.mem_append_left _ hm
    simpa using hm2

lemma contains_dropAllCol (m : DataFrame) (d x : String)
    (hne : ¬(x = d)) (h : m.cols.contains x = true) :
    (dropAllCol m d).cols.contains x = true := by
  have hm : x ∈ m.cols := by simpa using h
  have h2 : x ∈ (dropAllCol m d).cols := by
    rw [dropAllCol_cols, List.mem_filter]
    exact ⟨hm, by simpa using hne⟩
  simpa using h2

/-- A `timingStep` on an `OtherSafe` column never raises and leaves the
tracked columns (the shared column `c` and its two suffixed forms) and the
row count untouched. -/
lemma timingStep_other (p c : String) (m : DataFrame) (col0 : String)
    (hsafe : OtherSafe c col0)
    (hpres : pyEndsWith col0 "_fastf1" = true →
       m.cols.contains (pyReplace col0 "_fastf1" "_openf1") = true →
       m.cols.contains col0 = true) :
    ∃ m2, timingStep p m col0 = Except.ok m2 ∧
      m2.rows.length = m.rows.length ∧
      m2.colVals c = m.colVals c ∧
      m2.colVals (c ++ "_fastf1") = m.colVals (c ++ "_fastf1") ∧
      m2.colVals (c ++ "_openf1") = m.colVals (c ++ "_openf1") ∧
      (m.cols.contains (c ++ "_openf1") = true → m2.cols.contains (c ++ "_openf1") = true) ∧
      (∀ x, pyEndsWith x "_fastf1" = true → ¬(x = col0) →
         m.cols.contains x = true → m2.cols.contains x = true) := by
  unfold timingStep
  rcases hsafe with hskip | hstep
  · rw [hskip]
    simp only [Bool.false_and, Bool.false_eq_true, if_false]
    exact ⟨m, rfl, rfl, rfl, rfl, rfl, fun h => h, fun x _ _ h => h⟩
  · obtain ⟨hrepl, hd1, hd2, hd3, hc1, hc2, hc3, ho1, ho2, ho3⟩ := hstep
    by_cases hout : (pyEndsWith col0 "_fastf1" &&
        m.cols.contains (pyReplace col0 "_fastf1" "_openf1")) = true
    · rw [if_pos hout]
      rw [Bool.and_eq_true] at hout
      have hcol0 : m.cols.contains col0 = true := hpres hout.1 hout.2
      have hdo : m.cols.contains (pyReplace col0 "_fastf1" "" ++ "_openf1") = true := by
        rw [← hrepl]
        exact hout.2
      rw [hcol0, hdo]
      simp only [Bool.and_self, if_true]
      refine ⟨_, rfl, ?_, ?_, ?_, ?_, ?_, ?_⟩
      · rw [dropAllCol_rows_length, dropAllCol_rows_length, setCol_rows_length]
      · rw [colVals_dropAllCol_ne _ _ _ ho1, colVals_dropAllCol_ne _ _ _ hc1,
          colVals_setCol_ne _ _ _ _ hd1]
      · rw [colVals_dropAllCol_ne _ _ _ ho2, colVals_dropAllCol_ne _ _ _ hc2,
          colVals_setCol_ne _ _ _ _ hd2]
      · rw [colVals_dropAllCol_ne _ _ _ ho3, colVals_dropAllCol_ne _ _ _ hc3,
          colVals_setCol_ne _ _ _ _ hd3]
      · intro h
        apply contains_dropAllCol _ _ _ (fun he => ho3 he.symm)
        apply contains_dropAllCol _ _ _ (fun he => hc3 he.symm)
        exact contains_setCol _ _ _ _ h
      · intro x hx hxne hxc
        apply contains_dropAllCol
        · intro he
          have hfo := pyEndsWith_openf1_not_fastf1 (pyReplace col0 "_fastf1" "")
          rw [← he, hx] at hfo
          simp at hfo
        · exact contains_dropAllCol _ _ _ hxne (contains_setCol _ _ _ _ hxc)
    · have hout2 : (pyEndsWith col0 "_fastf1" &&
          m.cols.contains (pyReplace col0 "_fastf1" "_openf1")) = false := by
        revert hout
        cases (pyEndsWith col0 "_fastf1" &&
          m.cols.contains (pyReplace col0 "_fastf1" "_openf1")) <;> simp
      rw [hout2]
      simp only [Bool.false_eq_true, if_false]
      exact ⟨m, rfl, rfl, rfl, rfl, rfl, fun h => h, fun x _ _ h => h⟩

/-- The timing loop over columns that are all `OtherSafe` for `c` never
raises and preserves column `c`. -/
lemma timingLoop_preserve (p c : String) :
    ∀ (todo : List String) (m : DataFrame),
      todo.Nodup →
      (∀ col ∈ todo, OtherSafe c col) →
      (∀ col ∈ todo, pyEndsWith col "_fastf1" = true → m.cols.contains col = true) →
      ∃ res, timingLoop p todo m = Except.ok res ∧ res.colVals c = m.colVals c := by
  intro todo
  induction todo with
  | nil => intro m _ _ _; exact ⟨m, rfl, rfl⟩
  | cons col0 rest ih =>
    intro m hnd hsafe hpres
    obtain ⟨m2, hstep, _, hcc, _, _, _, hcontx⟩ :=
      timingStep_other p c m col0 (hsafe col0 (List.mem_cons_self _ _))
        (fun h1 _ => hpres col0 (List.mem_cons_self _ _) h1)
    obtain ⟨res, hloop, hval⟩ := ih m2 hnd.of_cons
      (fun col h => hsafe col (List.mem_cons_of_mem _ h))
      (fun col h he => hcontx col he
        (fun heq => (List.nodup_cons.mp hnd).1 (heq ▸ h))
        (hpres col (List.mem_cons_of_mem _ h) he))
    refine ⟨res, ?_, by rw [hval, hcc]⟩
    show (timingStep p m col0).bind (timingLoop p rest) = Except.ok res
    rw [hstep]
    exact hloop

/-- Walking the column snapshot: when the one column `c ++ "_fastf1"` is
reached, the loop installs the priority-combined column `c` and the rest of
the loop leaves it untouched; no iteration raises. -/
lemma timingLoop_main (p c : String) (n0 : Nat) (A B : List (Option Val))
    (hclean : cleanName c = true) :
    ∀ (todo : List String) (m : DataFrame),
      todo.Nodup →
      (∀ col ∈ todo, col = c ++ "_fastf1" ∨ OtherSafe c col) →
      (∀ col ∈ todo, pyEndsWith col "_fastf1" = true → m.cols.contains col = true) →
      m.rows.length = n0 →
      m.cols.contains (c ++ "_openf1") = true →
      m.colVals (c ++ "_fastf1") = A →
      m.colVals (c ++ "_openf1") = B →
      (c ++ "_fastf1") ∈ todo →
      ∃ res, timingLoop p todo m = Except.ok res ∧
        res.colVals c = (List.range n0).map (fun i =>
          (if p == "fastf1" then combineFirstVals A B else combineFirstVals B A).getD i none) := by
  intro todo
  induction todo with
  | nil => intro m _ _ _ _ _ _ _ htgt; exact absurd htgt (List.not_mem_nil _)
  | cons col0 rest ih =>
    intro m hnd hsafe hpres hlen hconto hA hB htgt
    have hccl := cleanName_spec c hclean
    by_cases hcol : col0 = c ++ "_fastf1"
    · subst hcol
      have hEnds : pyEndsWith (c ++ "_fastf1") "_fastf1" = true := pyEndsWith_append c _
      have hRepl : pyReplace (c ++ "_fastf1") "_fastf1" "_openf1" = c ++ "_openf1" :=
        pyReplace_clean_to_openf1 c hccl.1
      have hErase : pyReplace (c ++ "_fastf1") "_fastf1" "" = c :=
        pyReplace_clean_erase c hccl.1
      have hcontf : m.cols.contains (c ++ "_fastf1") = true :=
        hpres _ (List.mem_cons_self _ _) hEnds
      have hstep : timingStep p m (c ++ "_fastf1") =
          Except.ok (dropAllCol (dropAllCol
            (setCol m c (if p == "fastf1" then combineFirstVals A B else combineFirstVals B A))
            (c ++ "_fastf1")) (c ++ "_openf1")) := by
        unfold timingStep
        have hcond1 : (pyEndsWith (c ++ "_fastf1") "_fastf1" &&
            m.cols.contains (pyReplace (c ++ "_fastf1") "_fastf1" "_openf1")) = true := by
          rw [hEnds, hRepl, hconto]
          rfl
        rw [if_pos hcond1]
        have hcond2 : (m.cols.contains (c ++ "_fastf1") &&
            m.cols.contains (pyReplace (c ++ "_fastf1") "_fastf1" "" ++ "_openf1")) = true := by
          rw [hErase, hcontf, hconto]
          rfl
        rw [if_pos hcond2, hErase, hA, hB]
      have hcv : (dropAllCol (dropAllCol
          (setCol m c (if p == "fastf1" then combineFirstVals A B else combineFirstVals B A))
          (c ++ "_fastf1")) (c ++ "_openf1")).colVals c
          = (List.range n0).map (fun i =>
            (if p == "fastf1" then combineFirstVals A B else combineFirstVals B A).getD i none) := by
        rw [colVals_dropAllCol_ne _ _ _
            (fun he => string_append_suffix_ne_self c "_openf1" (by decide) he),
          colVals_dropAllCol_ne _ _ _
            (fun he => string_append_suffix_ne_self c "_fastf1" (by decide) he),
          colVals_setCol_self, hlen]
      have hrest_safe : ∀ col ∈ rest, OtherSafe c col := by
        intro col h
        rcases hsafe col (List.mem_cons_of_mem _ h) with he | hs
        · exact absurd (he ▸ h) (List.nodup_cons.mp hnd).1
        · exact hs
      have hrest_pres : ∀ col ∈ rest, pyEndsWith col "_fastf1" = true →
          (dropAllCol (dropAllCol
            (setCol m c (if p == "fastf1" then combineFirstVals A B else combineFirstVals B A))
            (c ++ "_fastf1")) (c ++ "_openf1")).cols.contains col = true := by
        intro col h he
        apply contains_dropAllCol
        · intro heq
          have hfo := pyEndsWith_openf1_not_fastf1 c
          rw [← heq, he] at hfo
          simp at hfo
        · apply contains_dropAllCol
          · intro heq
            exact (List.nodup_cons.mp hnd).1 (heq ▸ h)
          · exact contains_setCol _ _ _ _ (hpres col (List.mem_cons_of_mem _ h) he)
      obtain ⟨res, hloop, hval⟩ :=
        timingLoop_preserve p c rest _ hnd.of_cons hrest_safe hrest_pres
      refine ⟨res, ?_, by rw [hval, hcv]⟩
      show (timingStep p m (c ++ "_fastf1")).bind (timingLoop p rest) = Except.ok res
      rw [hstep]
      exact hloop
    · have hos : OtherSafe c col0 := by
        rcases hsafe col0 (List.mem_cons_self _ _) with he | hs
        · exact absurd he hcol
        · exact hs
      obtain ⟨m2, hstep, hlen2, _, hcf2, hco2, hcont2, hcontx⟩ :=
        timingStep_other p c m col0 hos (fun h1 _ => hpres col0 (List.mem_cons_self _ _) h1)
      have htgt2 : (c ++ "_fastf1") ∈ rest := by
        rcases List.mem_cons.mp htgt with he | h
        · exact absurd he.symm hcol
        · exact h
      obtain ⟨res, hloop, hval⟩ := ih m2 hnd.of_cons
        (fun col h => hsafe col (List.mem_cons_of_mem _ h))
        (fun col h he => hcontx col he
          (fun heq => (List.nodup_cons.mp hnd).1 (heq ▸ h))
          (hpres col (List.mem_cons_of_mem _ h) he))
        (by rw [hlen2, hlen])
        (hcont2 hconto)
        (by rw [hcf2, hA])
        (by rw [hco2, hB])
        htgt2
      refine ⟨res, ?_, hval⟩
      show (timingStep p m col0).bind (timingLoop p rest) = Except.ok res
      rw [hstep]
      exact hloop

lemma map_some_getD {α β : Type} (g : α → β) (a : α) (d : β) :
    (Option.map g (some a)).getD d = g a := rfl

lemma contains_eq_true_of_mem {l : List String} {x : String} (h : x ∈ l) :
    l.contains x = true := by
  simpa using h

lemma contains_eq_false_of_not_mem {l : List String} {x : String} (h : x ∉ l) :
    l.contains x = false := by
  cases hc : l.contains x with
  | false => rfl
  | true => exact absurd (by simpa using hc) h

lemma OtherSafe_of_clean (c a : String) (hc : cleanName c = true) (ha : cleanName a = true)
    (hne : ¬(a = c)) : OtherSafe c (a ++ "_fastf1") := by
  have haf := (cleanName_spec a ha).1
  have hErase : pyReplace (a ++ "_fastf1") "_fastf1" "" = a := pyReplace_clean_erase a haf
  right
  show pyReplace (a ++ "_fastf1") "_fastf1" "_openf1" =
      pyReplace (a ++ "_fastf1") "_fastf1" "" ++ "_openf1" ∧
    ¬(pyReplace (a ++ "_fastf1") "_fastf1" "" = c) ∧
    ¬(pyReplace (a ++ "_fastf1") "_fastf1" "" = c ++ "_fastf1") ∧
    ¬(pyReplace (a ++ "_fastf1") "_fastf1" "" = c ++ "_openf1") ∧
    ¬(a ++ "_fastf1" = c) ∧
    ¬(a ++ "_fastf1" = c ++ "_fastf1") ∧
    ¬(a ++ "_fastf1" = c ++ "_openf1") ∧
    ¬(pyReplace (a ++ "_fastf1") "_fastf1" "" ++ "_openf1" = c) ∧
    ¬(pyReplace (a ++ "_fastf1") "_fastf1" "" ++ "_openf1" = c ++ "_fastf1") ∧
    ¬(pyReplace (a ++ "_fastf1") "_fastf1" "" ++ "_openf1" = c ++ "_openf1")
  rw [hErase]
  exact ⟨pyReplace_clean_to_openf1 a haf, hne, clean_ne_suffixed_fastf1 a c ha,
    clean_ne_suffixed_openf1 a c ha,
    fun h => clean_ne_suffixed_fastf1 c a hc h.symm,
    fun h => hne (string_append_right_cancel h),
    suffix_pair_ne a c,
    fun h => clean_ne_suffixed_openf1 c a hc h.symm,
    fun h => suffix_pair_ne c a h.symm,
    fun h => hne (string_append_right_cancel h)⟩

/-- C5: in the timing strategy, for a shared non-key column `c` of two
locally prepared frames with distinct, suffix-free column names, the loop
succeeds and the merged column `c` is the first-non-null combination of
the two provider-suffixed columns of the outer-join frame, priority source
first. -/
theorem timing_merge_priority (f o : DataFrame) (p c : String)
    (hclF : ∀ a ∈ (timing_prepare f o).fLocal.cols, cleanName a = true)
    (hclO : ∀ a ∈ (timing_prepare f o).oLocal.cols, cleanName a = true)
    (hndF : (timing_prepare f o).fLocal.cols.Nodup)
    (hndO : (timing_prepare f o).oLocal.cols.Nodup)
    (hcf : c ∈ (timing_prepare f o).fLocal.cols)
    (hco : c ∈ (timing_prepare f o).oLocal.cols)
    (hck : c ∉ timing_merge_cols (timing_prepare f o).fLocal (timing_prepare f o).oLocal)
    (hkeys : ¬(timing_merge_cols (timing_prepare f o).fLocal (timing_prepare f o).oLocal = [])) :
    ∃ res, timing_body f o p = Except.ok res ∧
      reconcile_timing_data f o p = res ∧
      ∀ i, i < (timing_merged0 f o).rows.length →
        (res.colVals c).getD i none =
          (match ((timing_merged0 f o).colVals
              (c ++ (if p == "fastf1" then "_fastf1" else "_openf1"))).getD i none with
           | some v => some v
           | none => ((timing_merged0 f o).colVals
              (c ++ (if p == "fastf1" then "_openf1" else "_fastf1"))).getD i none) := by
  set fL := (timing_prepare f o).fLocal with hfL
  set oL := (timing_prepare f o).oLocal with hoL
  set keys := timing_merge_cols fL oL with hkeysdef
  have hclc : cleanName c = true := hclF c hcf
  have hkc : keys.contains c = false := contains_eq_false_of_not_mem hck
  set fCols := fL.cols.map
    (fun a => if !(keys.contains a) && oL.cols.contains a then a ++ "_fastf1" else a) with hfCols
  set oCols := (oL.cols.filter (fun a => !(keys.contains a))).map
    (fun a => if fL.cols.contains a then a ++ "_openf1" else a) with hoCols
  have hcols0 : (timing_merged0 f o).cols = fCols ++ oCols := rfl
  have hcnd : (!(keys.contains c) && oL.cols.contains c) = true := by
    rw [hkc, contains_eq_true_of_mem hco]
    rfl
  have htgt : (c ++ "_fastf1") ∈ fCols := by
    rw [hfCols]
    apply List.mem_map.mpr
    refine ⟨c, hcf, ?_⟩
    rw [hcnd]
    rfl
  have htgtm : (c ++ "_fastf1") ∈ (timing_merged0 f o).cols := by
    rw [hcols0]
    exact List.mem_append_left _ htgt
  have hopf : (c ++ "_openf1") ∈ oCols := by
    rw [hoCols]
    apply List.mem_map.mpr
    refine ⟨c, ?_, ?_⟩
    · rw [List.mem_filter]
      refine ⟨hco, ?_⟩
      rw [hkc]
      rfl
    · rw [contains_eq_true_of_mem hcf]
      rfl
  have hopfm : (c ++ "_openf1") ∈ (timing_merged0 f o).cols := by
    rw [hcols0]
    exact List.mem_append_right _ hopf
  have hsafe : ∀ col ∈ (timing_merged0 f o).cols, col = c ++ "_fastf1" ∨ OtherSafe c col := by
    intro col hcol
    rw [hcols0] at hcol
    rcases List.mem_append.mp hcol with hL | hR
    · rw [hfCols] at hL
      obtain ⟨a, ha, heq⟩ := List.mem_map.mp hL
      by_cases hcnda : (!(keys.contains a) && oL.cols.contains a) = true
      · rw [if_pos hcnda] at heq
        by_cases hac : a = c
        · subst hac
          exact Or.inl heq.symm
        · right
          rw [← heq]
          exact OtherSafe_of_clean c a hclc (hclF a ha) hac
      · rw [if_neg hcnda] at heq
        right
        rw [← heq]
        exact Or.inl (pyEndsWith_clean_fastf1 a (cleanName_spec a (hclF a ha)).1)
    · rw [hoCols] at hR
      obtain ⟨b, hb, heq⟩ := List.mem_map.mp hR
      have hbm : b ∈ oL.cols := List.mem_of_mem_filter hb
      right
      rw [← heq]
      by_cases hbf : fL.cols.contains b = true
      · rw [if_pos hbf]
        exact Or.inl (pyEndsWith_openf1_not_fastf1 b)
      · rw [if_neg hbf]
        exact Or.inl (pyEndsWith_clean_fastf1 b (cleanName_spec b (hclO b hbm)).1)
  have hfinj : ∀ x ∈ fL.cols, ∀ y ∈ fL.cols,
      (if !(keys.contains x) && oL.cols.contains x then x ++ "_fastf1" else x) =
      (if !(keys.contains y) && oL.cols.contains y then y ++ "_fastf1" else y) → x = y := by
    intro x hx y hy hxy
    by_cases h1 : (!(keys.contains x) && oL.cols.contains x) = true <;>
      by_cases h2 : (!(keys.contains y) && oL.cols.contains y) = true
    · rw [if_pos h1, if_pos h2] at hxy
      exact string_append_right_cancel hxy
    · rw [if_pos h1, if_neg h2] at hxy
      exact absurd hxy.symm (clean_ne_suffixed_fastf1 y x (hclF y hy))
    · rw [if_neg h1, if_pos h2] at hxy
      exact absurd hxy (clean_ne_suffixed_fastf1 x y (hclF x hx))
    · rw [if_neg h1, if_neg h2] at hxy
      exact hxy
  have hoinj : ∀ x ∈ oL.cols.filter (fun a => !(keys.contains a)),
      ∀ y ∈ oL.cols.filter (fun a => !(keys.contains a)),
      (if fL.cols.contains x then x ++ "_openf1" else x) =
      (if fL.cols.contains y then y ++ "_openf1" else y) → x = y := by
    intro x hx y hy hxy
    have hxm : x ∈ oL.cols := List.mem_of_mem_filter hx
    have hym : y ∈ oL.cols := List.mem_of_mem_filter hy
    by_cases h1 : fL.cols.contains x = true <;> by_cases h2 : fL.cols.contains y = true
    · rw [if_pos h1, if_pos h2] at hxy
      exact string_append_right_cancel hxy
    · rw [if_pos h1, if_neg h2] at hxy
      exact absurd hxy.symm (clean_ne_suffixed_openf1 y x (hclO y hym))
    · rw [if_neg h1, if_pos h2] at hxy
      exact absurd hxy (clean_ne_suffixed_openf1 x y (hclO x hxm))
    · rw [if_neg h1, if_neg h2] at hxy
      exact hxy
  have hnodup : (timing_merged0 f o).cols.Nodup := by
    rw [hcols0, List.nodup_append]
    refine ⟨List.Nodup.map_on hfinj hndF, List.Nodup.map_on hoinj (List.Nodup.filter _ hndO), ?_⟩
    rw [List.disjoint_left]
    intro x hxf hxo
    rw [hfCols] at hxf
    rw [hoCols] at hxo
    obtain ⟨a, ha, heqa⟩ := List.mem_map.mp hxf
    obtain ⟨b, hb, heqb⟩ := List.mem_map.mp hxo
    have hbm : b ∈ oL.cols := List.mem_of_mem_filter hb
    by_cases h1 : (!(keys.contains a) && oL.cols.contains a) = true <;>
      by_cases h2 : fL.cols.contains b = true
    · rw [if_pos h1] at heqa
      rw [if_pos h2] at heqb
      exact suffix_pair_ne a b (heqa.trans heqb.symm)
    · rw [if_pos h1] at heqa
      rw [if_neg h2] at heqb
      exact clean_ne_suffixed_fastf1 b a (hclO b hbm) (heqb.trans heqa.symm)
    · rw [if_neg h1] at heqa
      rw [if_pos h2] at heqb
      exact clean_ne_suffixed_openf1 a b (hclF a ha) (heqa.trans heqb.symm)
    · rw [if_neg h1] at heqa
      rw [if_neg h2] at heqb
      have hab : a = b := heqa.trans heqb.symm
      rw [hab] at ha
      exact h2 (contains_eq_true_of_mem ha)
  have hke : keys.isEmpty = false := by
    cases hk2 : keys with
    | nil => exact absurd hk2 hkeys
    | cons a l => rfl
  have hbody : timing_body f o p =
      timingLoop p (timing_merged0 f o).cols (timing_merged0 f o) := by
    simp only [timing_body]
    have hke2 : (timing_merge_cols (timing_prepare f o).fLocal
        (timing_prepare f o).oLocal).isEmpty = false := hke
    rw [hke2]
    rfl
  obtain ⟨res, hloop, hval⟩ := timingLoop_main p c (timing_merged0 f o).rows.length
    ((timing_merged0 f o).colVals (c ++ "_fastf1"))
    ((timing_merged0 f o).colVals (c ++ "_openf1")) hclc
    (timing_merged0 f o).cols (timing_merged0 f o)
    hnodup hsafe (fun col h _ => contains_eq_true_of_mem h) rfl
    (contains_eq_true_of_mem hopfm) rfl rfl htgtm
  have hb2 : timing_body f o p = Except.ok res := by
    rw [hbody]
    exact hloop
  refine ⟨res, hb2, ?_, ?_⟩
  · unfold reconcile_timing_data
    rw [hb2]
  · intro i hi
    rw [hval, List.getD_eq_getElem?_getD, List.getElem?_map, List.getElem?_range hi]
    simp only [map_some_getD]
    cases hp : (p == "fastf1") with
    | true =>
      simp only [hp, if_true]
      rw [combineFirstVals_getD]
      rw [colVals_length, colVals_length, max_self]
      exact hi
    | false =>
      simp only [hp, Bool.false_eq_true, if_false]
      rw [combineFirstVals_getD]
      rw [colVals_length, colVals_length, max_self]
      exact hi

theorem timing_merge_priority_witness :
    ∃ res, timing_body witTimF witTimO "fastf1" = Except.ok res ∧
      reconcile_timing_data witTimF witTimO "fastf1" = res ∧
      ∀ i, i < (timing_merged0 witTimF witTimO).rows.length →
        (res.colVals "lap").getD i none =
          (match ((timing_merged0 witTimF witTimO).colVals
              ("lap" ++ (if "fastf1" == "fastf1" then "_fastf1" else "_openf1"))).getD i none with
           | some v => some v
           | none => ((timing_merged0 witTimF witTimO).colVals
              ("lap" ++ (if "fastf1" == "fastf1" then "_openf1" else "_fastf1"))).getD i none) :=
  timing_merge_priority witTimF witTimO "fastf1" "lap" (by decide) (by decide) (by decide)
    (by decide) (by decide) (by decide) (by decide) (by decide)

theorem telemetry_window_exclusion_witness :
    ∃ lo hi, telemetry_min_time witTelF witTelO = some lo ∧
      telemetry_max_time witTelF witTelO = some hi ∧ lo ≤ (50 : Int) ∧ (50 : Int) ≤ hi :=
  telemetry_window_exclusion witTelF witTelO "fastf1"
    ⟨["time", "speed", "rpm"],
     [[some (Val.num 50), some (Val.num 20), some (Val.num 1)],
      [some (Val.num 100), some (Val.num 30), some (Val.num 2)]]⟩
    rfl
    [some (Val.num 50), some (Val.num 20), some (Val.num 1)]
    (by decide) 50 rfl

end F1Verify
